import Mathlib

/-!
# Verification of the moleculer-database core (MongoDB adapter and Snowflake ID generator)

Shallow embedding of `src/adapters/mongodb.js` and `src/snowflake.js`.
JavaScript values are modelled by `JsVal`; JS objects are association lists
whose insertion order is significant (as in JS).  Machine integers are
modelled by `Nat`; JS `parseInt` on a decimal string is exact only below
2^53, and theorems that depend on it carry that bound as a hypothesis.
The operations of the process-wide client registry live in
`src/adapters/base.js`, which is not part of the sources at hand; they are
modelled from the specification (section 4.2) and marked as such.
-/

/-- A JavaScript value, as far as the adapter needs it: `undef` is
`undefined`, `oid` stands for a driver-generated MongoDB ObjectId
(opaque, distinguished by a counter). -/
inductive JsVal where
  | undef
  | null
  | bool (b : Bool)
  | num (n : Int)
  | str (s : String)
  | arr (elems : List JsVal)
  | obj (fields : List (String × JsVal))

/-- JS truthiness. -/
def jsTruthy : JsVal → Bool
  | .undef => false
  | .null => false
  | .bool b => b
  | .num n => n != 0
  | .str s => s != ""
  | .arr _ => true
  | .obj _ => true

/-- JS `typeof`. -/
def jsTypeof : JsVal → String
  | .undef => "undefined"
  | .null => "object"
  | .bool _ => "boolean"
  | .num _ => "number"
  | .str _ => "string"
  | .arr _ => "object"
  | .obj _ => "object"

/-- `Array.isArray`. -/
def jsIsArray : JsVal → Bool
  | .arr _ => true
  | _ => false

/-- Property lookup on an association list (first binding wins, as JS
objects have unique keys and we always build them with `objPut`). -/
def fieldsGet : List (String × JsVal) → String → Option JsVal
  | [], _ => none
  | (k, v) :: rest, key => if k = key then some v else fieldsGet rest key

/-- JS property access `v.key`: `undefined` when absent or when the value
is not an object. -/
def jsGet (v : JsVal) (key : String) : JsVal :=
  match v with
  | .obj fs => (fieldsGet fs key).getD .undef
  | _ => (.undef)

/-- Property access returning `none` when the property is absent. -/
def jsGetOpt (v : JsVal) (key : String) : Option JsVal :=
  match v with
  | .obj fs => fieldsGet fs key
  | _ => none

/-- Set a property: overwrite in place when the key exists (JS keeps the
original position), append otherwise. -/
def objPut : List (String × JsVal) → String → JsVal → List (String × JsVal)
  | [], key, v => [(key, v)]
  | (k, w) :: rest, key, v =>
      if k = key then (k, v) :: rest else (k, w) :: objPut rest key v

/-- JS object spread `\x7b ...base, ...upd \x7d`: the fields of `upd` are
written over `base` in order. -/
def objSpread (base upd : List (String × JsVal)) : List (String × JsVal) :=
  upd.foldl (fun acc kv => objPut acc kv.1 kv.2) base

mutual

/-- Structural equality of values as MongoDB compares a stored field with
a query constant: primitives by value, embedded documents field by field
in order, arrays element by element. -/
def jsEqMongo : JsVal → JsVal → Bool
  | .undef, .undef => true
  | .null, .null => true
  | .bool a, .bool b => a == b
  | .num a, .num b => a == b
  | .str a, .str b => a == b
  | .arr a, .arr b => jsEqMongoList a b
  | .obj a, .obj b => jsEqMongoFields a b
  | _, _ => false
termination_by structural v => v

/-- Elementwise equality of arrays. -/
def jsEqMongoList : List JsVal → List JsVal → Bool
  | [], [] => true
  | x :: xs, y :: ys => jsEqMongo x y && jsEqMongoList xs ys
  | _, _ => false
termination_by structural l => l

/-- Fieldwise equality of embedded documents. -/
def jsEqMongoFields : List (String × JsVal) → List (String × JsVal) → Bool
  | [], [] => true
  | (k, x) :: xs, (l, y) :: ys => k == l && jsEqMongo x y && jsEqMongoFields xs ys
  | _, _ => false
termination_by structural l => l

end

/-- Lower-case a hexadecimal letter (models `String.prototype.toLowerCase`
on the characters that can occur in a hex identifier). -/
def jsCharToLower (c : Char) : Char :=
  if 'A' ≤ c ∧ c ≤ 'Z' then Char.ofNat (c.toNat + 32) else c

/-- `String.prototype.toLowerCase`. -/
def jsToLower (s : String) : String :=
  ⟨s.data.map jsCharToLower⟩

/-- `String.prototype.padStart(n, c)`. -/
def jsPadStart (s : String) (n : Nat) (c : Char) : String :=
  if n ≤ s.length then s else ⟨List.replicate (n - s.length) c ++ s.data⟩

/-- `String.prototype.substring(i, j)` for `i ≤ j` (clamped to the length,
as in JS). -/
def jsSubstring (s : String) (i j : Nat) : String :=
  ⟨(s.data.drop i).take (j - i)⟩

/-- `String.prototype.startsWith` for a single-character head. -/
def jsStartsWithChar (s : String) (c : Char) : Bool :=
  match s.data with
  | [] => false
  | d :: _ => d == c

mutual

/-- JS stringification of a value, as template interpolation performs it
(arrays join with commas, objects print as `[object Object]`). -/
def jsToStr : JsVal → String
  | .undef => "undefined"
  | .null => "null"
  | .bool b => if b then "true" else "false"
  | .num n => toString n
  | .str s => s
  | .arr l => String.intercalate "," (jsToStrList l)
  | .obj _ => "[object Object]"
termination_by structural v => v

/-- Stringify each element of an array. -/
def jsToStrList : List JsVal → List String
  | [] => []
  | x :: xs => jsToStr x :: jsToStrList xs
termination_by structural l => l

end

/-! ## The service schema as the adapter consumes it

`this.service.$fields` is a list of field descriptors with `name`,
`type`, `search` and `filter` flags and, for object-typed fields, a map
of sub-properties; `this.service.$primaryField` carries `columnName` and
`generated`. -/

/-- A sub-property of an object-typed field (entry of `properties`). -/
structure SubProp where
  search : Bool
  type : String

/-- A field descriptor from `this.service.$fields`. -/
structure ServiceField where
  name : String
  type : String
  search : Bool
  filter : Bool
  properties : Option (List (String × SubProp)) := none

/-- The slice of `this.service` the adapter reads. -/
structure ServiceModel where
  fields : List ServiceField
  primaryColumnName : String
  primaryGenerated : String

/-! ## The query translator (`mongodb.js`) -/

/-- `buildStandardMatch(field, values, type)`: a case-insensitive
substring predicate; an array of values is joined into one alternation
pattern; number-typed fields are matched through `$toString`. -/
def buildStandardMatch (field : String) (values : JsVal) (type : String) : JsVal :=
  let regexPattern :=
    match values with
    | .arr l => String.intercalate "|" (l.map (fun v => "(" ++ jsToStr v ++ ")"))
    | v => jsToStr v
  if type = "number" then
    .obj [("$expr", .obj [("$regexMatch", .obj
      [("input", .obj [("$toString", .str ("$" ++ field))]),
       ("regex", .str (".*" ++ regexPattern ++ ".*")),
       ("options", .str "i")])])]
  else
    .obj [(field, .obj [("$regex", .str (".*" ++ regexPattern ++ ".*")), ("$options", .str "i")])]

/-- `buildStandardStrict(field, value, type)`: an exact-equality
predicate (the number branch emits the `$expr` document the source
emits, operator-less as it is). -/
def buildStandardStrict (field : String) (value : JsVal) (type : String) : JsVal :=
  if type = "number" then
    .obj [("$expr", .obj [("input", .obj [("$toString", .str ("$" ++ field))])])]
  else
    .obj [(field, value)]

/-- The JS guard `query !== undefined && query !== null` used to drop
invalid per-value predicates. -/
def notNully : JsVal → Bool
  | .undef => false
  | .null => false
  | _ => true

/-- The JS strict-equality test `v === ''`. -/
def isEmptyStrVal : JsVal → Bool
  | .str s => s == ""
  | _ => false

/-- `processFilterParams(filter)`: one predicate per filterable field,
`isMatch` choosing the pattern builder; note that in the strict branch
the source passes the whole `valueObj` (not `values`) to the builder. -/
def processFilterParams (svc : ServiceModel) (filter : JsVal) : List JsVal :=
  if ¬ jsTruthy filter then []
  else
    (match filter with
     | .obj entries =>
        entries.foldl (fun (queryAccumulator : List JsVal) (e : String × JsVal) =>
          let field := e.1
          let valueObj := e.2
          if ¬ (svc.fields.any (fun f => f.filter && f.name == field)) ∨ isEmptyStrVal valueObj then
            queryAccumulator
          else
            let isMatch := jsGet valueObj "isMatch"
            let values := jsGet valueObj "values"
            let valuesToProcess := if jsTruthy isMatch then values else valueObj
            if isEmptyStrVal valuesToProcess ∧ ¬ jsTruthy isMatch then queryAccumulator
            else
              let buildMethod := fun (f : String) (v : JsVal) (t : String) =>
                if jsTruthy isMatch then buildStandardMatch f v t else buildStandardStrict f v t
              let processedValues :=
                match valuesToProcess with
                | .arr l => (l.map (fun v => buildMethod field v (jsTypeof v))).filter notNully
                | v => [buildMethod field v (jsTypeof v)].filter notNully
              if 1 < processedValues.length then
                queryAccumulator ++ [.obj [("$or", .arr processedValues)]]
              else if processedValues.length = 1 then
                queryAccumulator ++ processedValues
              else queryAccumulator)
          []
     | _ => [])

/-- The allow-list test `searchFields.includes(field.name)`. -/
def searchFieldsInclude (searchFields : JsVal) (name : String) : Bool :=
  match searchFields with
  | .arr l => l.any (fun v => match v with | .str s => s == name | _ => false)
  | _ => false

/-- `v.length === 0` as JS evaluates it on our values. -/
def jsLengthIsZero : JsVal → Bool
  | .str s => s.length == 0
  | .arr l => l.length == 0
  | _ => false

/-- `v.length` is `0` or absent, i.e. the JS guard `searchFields.length === 0`. -/
def processSearchParams (svc : ServiceModel) (search searchFields : JsVal) : List JsVal :=
  if ¬ jsTruthy search ∨ jsLengthIsZero search then []
  else
    let isFieldSearchable := fun (f : ServiceField) =>
      f.search && (¬ jsTruthy searchFields || searchFieldsInclude searchFields f.name
        || jsLengthIsZero searchFields)
    let searchInFields :=
      (svc.fields.filter isFieldSearchable).flatMap (fun f =>
        match f.type, f.properties with
        | "object", some props =>
            (props.filter (fun p => p.2.search)).map
              (fun p => (f.name ++ "." ++ p.1, p.2.type))
        | _, _ => [(f.name, f.type)])
    let searchQueries := searchInFields.map (fun nt => buildStandardMatch nt.1 search nt.2)
    if searchQueries.length ≠ 0 then [.obj [("$or", .arr searchQueries)]] else []

/-- The generic params shape consumed by `createQuery`/`parseParams`. -/
structure QueryParams where
  query : JsVal := .undef
  search : JsVal := .undef
  searchFields : JsVal := .undef
  filter : JsVal := .undef
  sort : JsVal := .undef
  limit : JsVal := .undef
  offset : JsVal := .undef
  collation : JsVal := .undef
  hint : JsVal := (.undef)

/-- `parseParams(params)`: the conjunction of search clause, filter
clause and raw passthrough query, wrapped in `$and` (an empty object
when nothing applies). -/
def parseParams (svc : ServiceModel) (params : QueryParams) : JsVal :=
  let cq := processSearchParams svc params.search params.searchFields
    ++ processFilterParams svc params.filter
    ++ (if jsTruthy params.query then [params.query] else [])
  if 0 < cq.length then .obj [("$and", .arr cq)] else .obj []

/-! ## MongoDB query evaluation

The semantics of the query documents the translator emits, as the
MongoDB server evaluates them over one stored document: top-level
`$and`/`$or`, exact equality of a field against a constant, and the
case-insensitive `.*literal.*` regular expressions the adapter builds
(specification section 4.4: case-insensitive substring match).  The
operator-less `$expr` document of the strict number branch matches
nothing (the server rejects it). -/

/-- Is `pat` a contiguous substring of `hay`? -/
def listContainsSub (hay pat : List Char) : Bool :=
  match hay with
  | [] => pat.isEmpty
  | _ :: rest => pat.isPrefixOf hay || listContainsSub rest pat

/-- Case-insensitive substring test, the meaning of the `.*P.*`/`i`
regular expressions the adapter emits (for the literal patterns it
builds from a single non-array value). -/
def matchesAdapterRegex (pattern : String) (stored : JsVal) : Bool :=
  let core := (pattern.data.drop 2).dropLast.dropLast
  listContainsSub ((jsToStr stored).data.map jsCharToLower) (core.map jsCharToLower)

mutual

/-- Evaluate one query document against a stored document. -/
def matchQuery (q : JsVal) (doc : JsVal) : Bool :=
  match q with
  | .obj entries => matchEntries entries doc
  | _ => false
termination_by structural q

/-- Evaluate the conjunction of the entries of a query document. -/
def matchEntries (entries : List (String × JsVal)) (doc : JsVal) : Bool :=
  match entries with
  | [] => true
  | (k, v) :: rest => matchEntry k v doc && matchEntries rest doc
termination_by structural entries

/-- Evaluate one entry of a query document. -/
def matchEntry (key : String) (v : JsVal) (doc : JsVal) : Bool :=
  if key = "$and" then
    match v with
    | .arr qs => matchAll qs doc
    | _ => false
  else if key = "$or" then
    match v with
    | .arr qs => matchAny qs doc
    | _ => false
  else if key = "$expr" then
    false
  else
    match v with
    | .obj opFields =>
        match fieldsGet opFields "$regex" with
        | some (.str pattern) => matchesAdapterRegex pattern (jsGet doc key)
        | _ => jsEqMongo (jsGet doc key) (.obj opFields)
    | w => jsEqMongo (jsGet doc key) w
termination_by structural v

/-- All queries of a `$and` array hold. -/
def matchAll (qs : List JsVal) (doc : JsVal) : Bool :=
  match qs with
  | [] => true
  | q :: rest => matchQuery q doc && matchAll rest doc
termination_by structural qs

/-- Some query of a `$or` array holds. -/
def matchAny (qs : List JsVal) (doc : JsVal) : Bool :=
  match qs with
  | [] => false
  | q :: rest => matchQuery q doc || matchAny rest doc
termination_by structural qs

end

/-- The documents of a collection that a query document selects, in
store order (the MongoDB execution of an unsorted `find(query)`). -/
def mongoFilter (docs : List JsVal) (q : JsVal) : List JsVal :=
  docs.filter (fun d => matchQuery q d)

/-! ## `transformSort` and `createQuery` -/

/-- `transformSort(sort)`: a string becomes a one-element array; an array
folds into a direction map, a leading `-` meaning descending; anything
else passes through. -/
def transformSort (sort : JsVal) : JsVal :=
  let asArray :=
    match sort with
    | .str s => some [JsVal.str s]
    | .arr l => some l
    | _ => none
  match asArray with
  | some l =>
      .obj (l.foldl (fun res s =>
        match s with
        | .str s =>
            if jsStartsWithChar s '-' then objPut res (jsSubstring s 1 s.length) (.num (-1))
            else objPut res s (.num 1)
        | _ => res) [])
  | none => sort

/-- What `createQuery` hands back: the find path returns a cursor object
carrying the query and the applied sort/collation/skip/limit/hint; the
counting path calls `countDocuments`, whose result is a promise of a
number, not a cursor. -/
inductive QueryObj where
  | cursor (query : JsVal) (sort : Option JsVal) (collation : Option JsVal)
      (skip : Option Int) (limit : Option Int) (hint : Option JsVal)
  | countPromise (query : JsVal)

/-- The JS runtime error raised when a method is called on a value that
does not have it. -/
inductive JsError where
  | typeError (message : String)

/-- `q.hint(h)`: a find cursor records the hint; the promise returned by
`countDocuments` has no `hint` method, so the call throws. -/
def applyHint (q : QueryObj) (h : JsVal) : Except JsError QueryObj :=
  match q with
  | .cursor query sort collation skip limit _ => .ok (.cursor query sort collation skip limit (some h))
  | .countPromise _ => .error (.typeError "q.hint is not a function")

/-- Does the query object have a `sort` method (the JS truthiness guard
`q.sort` in `createQuery`)? -/
def hasSortMethod : QueryObj → Bool
  | .cursor _ _ _ _ _ _ => true
  | .countPromise _ => false

/-- Apply a sort and, inside the same branch, a collation (the source
applies `collation` only when the sort branch is taken: `q.sort(sort)`
when the transformed sort is truthy, then `q.collation(c)` when the
params carry one). -/
def applySortCollation (q : QueryObj) (sort : JsVal) (collation : JsVal) : QueryObj :=
  match q with
  | .cursor query oldSort oldCollation skip limit hint =>
      let sortOpt := if jsTruthy sort then some sort else oldSort
      let collOpt := if jsTruthy collation then some collation else oldCollation
      .cursor query sortOpt collOpt skip limit hint
  | other => other

/-- `q.skip(params.offset)` guarded by `_.isNumber(params.offset) &&
params.offset > 0` (a no-op on the counting promise, whose branch never
runs it). -/
def applyOffset (q : QueryObj) (offset : JsVal) : QueryObj :=
  match q with
  | .cursor query sort coll skip limit hint =>
      (match offset with
       | .num n => if 0 < n then .cursor query sort coll (some n) limit hint
                   else .cursor query sort coll skip limit hint
       | _ => .cursor query sort coll skip limit hint)
  | other => other

/-- `q.limit(params.limit)` guarded the same way. -/
def applyLimit (q : QueryObj) (limit : JsVal) : QueryObj :=
  match q with
  | .cursor query sort coll skip oldLimit hint =>
      (match limit with
       | .num n => if 0 < n then .cursor query sort coll skip (some n) hint
                   else .cursor query sort coll skip oldLimit hint
       | _ => .cursor query sort coll skip oldLimit hint)
  | other => other

/-- `createQuery(params, opts)` of the MongoDB adapter: choose
`countDocuments` or `find`, translate the params, then apply sort,
collation, offset, limit (all skipped when counting) and finally,
unconditionally, `hint` when present. -/
def createQuery (svc : ServiceModel) (params : Option QueryParams) (counting : Bool) :
    Except JsError QueryObj :=
  match params with
  | some p =>
      let query := parseParams svc p
      let q : QueryObj := if counting then .countPromise query
        else .cursor query none none none none none
      let q := if ¬ counting ∧ jsTruthy p.sort ∧ hasSortMethod q then
          applySortCollation q (transformSort p.sort) p.collation
        else q
      let q := if ¬ counting then applyOffset q p.offset else q
      let q := if ¬ counting then applyLimit q p.limit else q
      if jsTruthy p.hint then applyHint q p.hint else .ok q
  | none =>
      .ok (if counting then .countPromise (.obj []) else .cursor (.obj []) none none none none none)

/-- `count(params)` of the MongoDB adapter. -/
def adapterCount (svc : ServiceModel) (params : Option QueryParams) : Except JsError QueryObj :=
  createQuery svc params true

/-- `find(params)` of the MongoDB adapter (the query object whose
`toArray` the source returns). -/
def adapterFind (svc : ServiceModel) (params : Option QueryParams) : Except JsError QueryObj :=
  createQuery svc params false

/-- The query document a query object executes. -/
def queryOf : QueryObj → JsVal
  | .cursor query _ _ _ _ _ => query
  | .countPromise query => query

/-! ## `addIdToEntity`, `insert`, `insertMany`, `replaceById`

The Snowflake generator is verified separately below; here the freshly
generated ID strings that successive `SnowflakeId.generate().toString()`
calls would produce are supplied as a list. -/

/-- `addIdToEntity(entity)`: when the primary field is not user-generated,
build a new object with the generated ID under the primary column name
first and the entity's own fields spread after it. -/
def addIdToEntity (svc : ServiceModel) (genId : String) (entity : JsVal) : JsVal :=
  if svc.primaryGenerated ≠ "user" then
    match entity with
    | .obj fs => .obj (objSpread [(svc.primaryColumnName, .str genId)] fs)
    | _ => entity
  else entity

/-- The driver side of `insertMany`: MongoDB stores each document as
given and reports, per document, the stored `_id` — the document's own
`_id` when it has one, a fresh ObjectId otherwise (modelled as an `oid`
wrapping the document's position counter). -/
def driverInsertedId (ctr : Nat) (d : JsVal) : JsVal :=
  match jsGetOpt d "_id" with
  | some v => v
  | none => .obj [("$oid", .num ctr)]

/-- `insert(entity)`: inject the ID, persist, return the injected
entity (the error-wrapping branch is not modelled; the success path is
what the claims are about). -/
def adapterInsert (svc : ServiceModel) (genId : String) (store : List JsVal)
    (entity : JsVal) : JsVal × List JsVal :=
  let e := addIdToEntity svc genId entity
  (e, store ++ [e])

/-- `insertMany(entities, opts)`: inject one fresh ID per entity into the
remapped copies, persist the copies, then return either the original
`entities` array or the driver's `insertedIds` values. -/
def adapterInsertMany (svc : ServiceModel) (genIds : List String) (store : List JsVal)
    (entities : List JsVal) (returnEntities : Bool) : List JsVal × List JsVal :=
  let remappedEntities := (entities.zip genIds).map (fun p => addIdToEntity svc p.2 p.1)
  let insertedIds := (List.range remappedEntities.length).zip remappedEntities |>.map
    (fun p => driverInsertedId p.1 p.2)
  (if returnEntities then entities else insertedIds, store ++ remappedEntities)

/-- Replace the first document matching the query with `e` and return
the post-replacement document (`returnDocument: 'after'`), `none` when
no document matches — the driver side of `findOneAndReplace`. -/
def findOneAndReplace (store : List JsVal) (q : JsVal) (e : JsVal) :
    Option JsVal × List JsVal :=
  match store with
  | [] => (none, [])
  | d :: rest =>
      if matchQuery q d then (some e, e :: rest)
      else
        let (v, rest2) := findOneAndReplace rest q e
        (v, d :: rest2)

/-- `replaceById(id, entity)`: builds the replacement as the `id` key
followed by the spread of `entity` and swaps it in for the document whose
`id` field equals the argument. -/
def replaceById (store : List JsVal) (id : JsVal) (entity : JsVal) :
    Option JsVal × List JsVal :=
  let e : JsVal :=
    match entity with
    | .obj fs => .obj (objSpread [("id", id)] fs)
    | _ => .obj (objSpread [("id", id)] [])
  findOneAndReplace store (.obj [("id", id)]) e

/-! ## The global client registry and `connect`

Modelled from the spec: the registry operations
(`getClientFromGlobalStore`, `setClientToGlobalStore`,
`removeAdapterFromClientGlobalStore`) live in `src/adapters/base.js`,
which is not among the sources at hand; specification section 4.2
describes them as a process-wide map from an identity key to a
reference-counted client handle — `register` creates the entry with one
reference, `release` decrements and removes the entry when the count
reaches zero, reporting whether the physical connection must be closed.
The `connect()` control flow itself is embedded from `mongodb.js`. -/

/-- A registry entry: the shared client handle and its reference count. -/
structure RegEntry where
  client : Nat
  refCount : Nat

/-- The process-wide client registry. -/
def GlobalStore := List (String × RegEntry)

/-- Look up an entry. -/
def storeLookup (store : GlobalStore) (key : String) : Option RegEntry :=
  match store with
  | [] => none
  | (k, e) :: rest => if k = key then some e else storeLookup rest key

/-- `getClientFromGlobalStore(key)`. -/
def getClientFromGlobalStore (store : GlobalStore) (key : String) : Option Nat :=
  (storeLookup store key).map (fun e => e.client)

/-- `setClientToGlobalStore(key, client)`: register a freshly created
client with a single reference. -/
def setClientToGlobalStore (store : GlobalStore) (key : String) (client : Nat) : GlobalStore :=
  (key, { client := client, refCount := 1 }) :: store

/-- `removeAdapterFromClientGlobalStore(key)`: drop one reference;
remove the entry and answer `true` when it was the last one. -/
def removeAdapterFromClientGlobalStore (store : GlobalStore) (key : String) :
    Bool × GlobalStore :=
  match store with
  | [] => (false, [])
  | (k, e) :: rest =>
      if k = key then
        if e.refCount ≤ 1 then (true, rest)
        else (false, (k, { client := e.client, refCount := e.refCount - 1 }) :: rest)
      else
        let (b, rest2) := removeAdapterFromClientGlobalStore rest key
        (b, (k, e) :: rest2)

/-- A connection-level error from the driver. -/
structure ConnError where
  message : String

/-- The `connect()` of the MongoDB adapter, as far as the registry is
concerned: on a miss, create and register a client, then attempt the
physical connection, rolling the registration back and rethrowing when
it fails; on a hit, reuse the registered client (the wait-for-open,
database selection and ping that follow a successful connect do not
touch the registry and are elided). -/
def connectModel (store : GlobalStore) (key : String) (newClient : Nat)
    (connectOutcome : Except ConnError Unit) : Except ConnError Unit × GlobalStore :=
  match getClientFromGlobalStore store key with
  | some _ => (.ok (), store)
  | none =>
      let store1 := setClientToGlobalStore store key newClient
      match connectOutcome with
      | .error err => (.error err, (removeAdapterFromClientGlobalStore store1 key).2)
      | .ok _ => (.ok (), store1)

/-! ## The Snowflake ID generator (`snowflake.js`)

The arbitrary-precision converter works on little-endian digit arrays
(`parseToDigitsArray` reverses the string, `add`/`multiplyByNumber`
carry in the target base).  JS `toString(radix)` and `parseInt` are
modelled below; `parseInt` of a decimal string is exact only below 2^53,
which the fingerprint theorems carry as a hypothesis. -/

/-- The value of one digit character, as `parseInt` reads it (`0-9`,
`a-z`, `A-Z`), `none` when the character is invalid for the base. -/
def parseDigitChar (c : Char) (base : Nat) : Option Nat :=
  let v : Option Nat :=
    if '0' ≤ c ∧ c ≤ '9' then some (c.toNat - 48)
    else if 'a' ≤ c ∧ c ≤ 'z' then some (c.toNat - 87)
    else if 'A' ≤ c ∧ c ≤ 'Z' then some (c.toNat - 55)
    else none
  match v with
  | some n => if n < base then some n else none
  | none => none

/-- `parseToDigitsArray(str, base)`: the string's digits little-endian,
`null` when any character fails to parse. -/
def parseToDigitsArray (str : String) (base : Nat) : Option (List Nat) :=
  str.data.reverse.mapM (fun c => parseDigitChar c base)

/-- The little-endian digits of `n` in base `b`, with explicit fuel so
the definition is structurally recursive (the fuel `n` always suffices,
since the number of digits of `n` is at most `n`). -/
def toLEDigitsAux (b : Nat) : Nat → Nat → List Nat
  | 0, _ => []
  | fuel + 1, n =>
      if b ≤ 1 then [] else if n = 0 then [] else (n % b) :: toLEDigitsAux b fuel (n / b)

/-- The little-endian digits of `n` in base `b` (the digit-pushing loop
JS runs while a carry remains, and the body of `toString(radix)`). -/
def toLEDigits (b n : Nat) : List Nat :=
  toLEDigitsAux b n n

/-- The tail of `add(x, y, base)` once the first array is exhausted:
keep adding the carry into the remaining digits, then push the carry's
own digits. -/
def addTail (b : Nat) : List Nat → Nat → List Nat
  | [], c => if c = 0 then [] else toLEDigits b c
  | y :: ys, c => ((c + y) % b) :: addTail b ys ((c + y) / b)

/-- `add(x, y, base)`: elementwise addition of little-endian digit
arrays with carry propagation; once one array is exhausted the loop
keeps pushing `carry % base`. -/
def addDigits (b : Nat) : List Nat → List Nat → Nat → List Nat
  | [], y, c => addTail b y c
  | x :: xs, [], c => ((c + x) % b) :: addDigits b xs [] ((c + x) / b)
  | x :: xs, y :: ys, c => ((c + x + y) % b) :: addDigits b xs ys ((c + x + y) / b)

/-- The JS `add(x, y, base)` (carry starts at zero). -/
def jsAdd (x y : List Nat) (b : Nat) : List Nat := addDigits b x y 0

/-- The shift-and-double loop of `multiplyByNumber`, with explicit fuel
so the definition is structurally recursive (`num` halves each round, so
fuel `num` always suffices; the source enters with `num ≥ 1`). -/
def mulLoopAux (b : Nat) : Nat → Nat → List Nat → List Nat → List Nat
  | 0, _, _, result => result
  | fuel + 1, num, power, result =>
      let result2 := if num % 2 = 1 then jsAdd result power b else result
      let num2 := num / 2
      if num2 = 0 then result2 else mulLoopAux b fuel num2 (jsAdd power power b) result2

/-- The shift-and-double loop of `multiplyByNumber` (`num ≥ 1` on
entry, as the source returns early on zero). -/
def mulLoop (b : Nat) (num : Nat) (power result : List Nat) : List Nat :=
  mulLoopAux b num num power result

/-- `multiplyByNumber(num, x, base)`. -/
def multiplyByNumber (num : Nat) (x : List Nat) (b : Nat) : List Nat :=
  if num = 0 then [] else mulLoop b num x []

/-- The character of a digit value below 16, as JS `toString` renders
it. -/
def digitChar (d : Nat) : Char :=
  if d < 10 then Char.ofNat (48 + d) else Char.ofNat (87 + d)

/-- JS `n.toString(radix)` for a natural number: the digits of `n`
most-significant first, `"0"` for zero. -/
def jsNatToString (b n : Nat) : String :=
  if n = 0 then "0" else ⟨(toLEDigits b n).reverse.map digitChar⟩

/-- One step of the `convertBase` accumulation loop: fold state is the
output array and the running power. -/
def convertBaseStep (fromBase toBase : Nat) (acc : List Nat × List Nat) (d : Nat) :
    List Nat × List Nat :=
  ( if d ≠ 0 then jsAdd acc.1 (multiplyByNumber d acc.2 toBase) toBase else acc.1,
    multiplyByNumber fromBase acc.2 toBase )

/-- `convertBase(str, fromBase, toBase)`: parse into little-endian
digits, accumulate `digit * power` in the target base, then render the
output array most-significant first (each output digit through JS
`toString(toBase)`). -/
def convertBase (str : String) (fromBase toBase : Nat) : Option String :=
  match parseToDigitsArray str fromBase with
  | none => none
  | some digits =>
      let out := (digits.foldl (convertBaseStep fromBase toBase) ([], [1])).1
      some (String.join (out.reverse.map (fun d => jsNatToString toBase d)))

/-- Strip a literal `0x` prefix, as `hexToDec` does. -/
def strip0x (s : String) : String :=
  if jsSubstring s 0 2 = "0x" then jsSubstring s 2 s.length else s

/-- `hexToDec(hexStr)`. -/
def hexToDec (s : String) : Option String :=
  convertBase (jsToLower (strip0x s)) 16 10

/-- Conversion of a mathematical integer to a JS number (IEEE 754
float64): integers below 2^53 are exact; above, the binary expansion is
cut to 53 significant bits with round-to-nearest, ties to even.  (All
values this development meets are far below 2^1024, so overflow to
infinity cannot occur.) -/
def floatRound (n : Nat) : Nat :=
  let bits := (toLEDigits 2 n).length
  if bits ≤ 53 then n
  else
    let k := bits - 53
    let q := n / 2 ^ k
    let r := n % 2 ^ k
    let half := 2 ^ (k - 1)
    if half < r ∨ (r = half ∧ q % 2 = 1) then (q + 1) * 2 ^ k else q * 2 ^ k

/-- JS `parseInt` on a decimal string: the value of the longest leading
digit run rounded to the nearest float64 (exact below 2^53), `none`
(NaN) when there is no digit. -/
def jsParseIntDec (s : String) : Option Nat :=
  let pre := s.data.takeWhile (fun c => '0' ≤ c ∧ c ≤ '9')
  if pre.isEmpty then none
  else some (floatRound (pre.foldl (fun acc c => acc * 10 + (c.toNat - 48)) 0))

/-- The constructor's padding of the instance identifier to 32
characters. -/
def instanceIdPadded (instanceId : String) : String :=
  jsPadStart instanceId 32 '0'

/-- The constructor's `instanceNumber`: parse the padded identifier as a
hex integer, reduce modulo 24, offset by 1000, render in binary and pad
to at least 5 characters; `none` when the identifier is not hexadecimal
or its decimal expansion is empty (the JS NaN path). -/
def instanceNumberStr (instanceId : String) : Option String :=
  match hexToDec (instanceIdPadded instanceId) with
  | none => none
  | some dec =>
      match jsParseIntDec dec with
      | none => none
      | some n => some (jsPadStart (jsNatToString 2 ((n % 24) + 1000)) 5 '0')

/-- The generator's mutable state: `lastTime` and the 12-bit sequence
counter. -/
structure SnowState where
  lastTime : Nat
  seq : Nat
deriving DecidableEq

/-- The state update of `generate()`: on a repeated tick increment the
sequence, rolling over to zero and bumping the time by one when it
exceeds 4095; on a new tick reset the sequence. -/
def genStepState (st : SnowState) (time : Nat) : SnowState :=
  if st.lastTime = time then
    if st.seq + 1 > 4095 then { lastTime := time + 1, seq := 0 }
    else { lastTime := time, seq := st.seq + 1 }
  else { lastTime := time, seq := 0 }

/-- `parseInt(chunk, 2)` on a nibble: value of the longest leading run
of binary digits, `none` (NaN) when there is none. -/
def parseIntBin (l : List Char) : Option Nat :=
  let pre := l.takeWhile (fun c => c = '0' ∨ c = '1')
  if pre.isEmpty then none
  else some (pre.foldl (fun acc c => acc * 2 + (c.toNat - 48)) 0)

/-- One nibble of the hex-encoding loop: `parseInt(chunk, 2).toString(16)`
(the NaN branch renders as JS would print it; it is unreachable for the
binary strings `generate` builds). -/
def chunkHex (l : List Char) : String :=
  match parseIntBin l with
  | some v => jsNatToString 16 v
  | none => "NaN"

/-- The nibble loop with explicit fuel so the definition is structurally
recursive (each round removes four characters, so fuel `l.length`
suffices). -/
def nibbleHexAux : Nat → List Char → String
  | 0, _ => ""
  | fuel + 1, l =>
      if l.length = 0 then ""
      else nibbleHexAux fuel (l.take (l.length - 4)) ++ chunkHex (l.drop (l.length - 4))

/-- The loop converting the composed bit string to hexadecimal four bits
at a time from the right (`id = parseInt(bid.substring(i-4, i), 2).toString(16) + id`). -/
def nibbleHex (l : List Char) : String :=
  nibbleHexAux l.length l

/-- The composed bit string of `generate()`: time bits, instance
fingerprint, 12-bit sequence, 10-bit random component. -/
def genBid (instStr : String) (rnd offset : Nat) (st2 : SnowState) : String :=
  let bTime := jsNatToString 2 (st2.lastTime - offset)
  let bSeq := jsPadStart (jsNatToString 2 st2.seq) 12 '0'
  let bRnd := jsPadStart (jsNatToString 2 rnd) 10 '0'
  bTime ++ instStr ++ bSeq ++ bRnd

/-- `generate()`: update the state, compose the bit string, convert it
nibble-wise to hex and then to decimal, pad to 23 digits and truncate to
exactly 23.  The string is `none` only on the JS NaN path, which cannot
arise from a constructed generator. -/
def generate (instStr : String) (rnd offset : Nat) (st : SnowState) (time : Nat) :
    SnowState × Option String :=
  let st2 := genStepState st time
  let id := nibbleHex (genBid instStr rnd offset st2).data
  (st2, (hexToDec id).map (fun d => jsSubstring (jsPadStart d 23 '0') 0 23))

/-- A sequence of `generate()` calls at the given clock readings,
returning the produced ID strings in call order. -/
def genRun (instStr : String) (rnd offset : Nat) : SnowState → List Nat → List (Option String)
  | _, [] => []
  | st, t :: ts =>
      let r := generate instStr rnd offset st t
      r.2 :: genRun instStr rnd offset r.1 ts

/-- The numeric value of the composed bit string: elapsed time shifted
past the 10-bit fingerprint, 12-bit sequence and 10-bit random segments. -/
def genValue (instNum rnd offset : Nat) (st2 : SnowState) : Nat :=
  (st2.lastTime - offset) * 2 ^ 32 + instNum * 2 ^ 22 + st2.seq * 2 ^ 10 + rnd

/-- A binary digit character. -/
def isBinChar (c : Char) : Bool := c == '0' || c == '1'

/-- A decimal digit character. -/
def isDecChar (c : Char) : Bool := decide ('0' ≤ c) && decide (c ≤ '9')

/-- The numeric value of a digit character (decimal digits and the
lowercase hex letters). -/
def digitVal (c : Char) : Nat :=
  if c.toNat ≥ 97 then c.toNat - 87 else c.toNat - 48

/-- Reading a big-endian list of digit characters in the given base (the
specification-side inverse of the renderings above). -/
def readLC (b : Nat) (l : List Char) : Nat :=
  l.foldl (fun acc c => acc * b + digitVal c) 0

/-- Reading a string of digit characters in the given base. -/
def readStrBase (b : Nat) (s : String) : Nat :=
  readLC b s.data

/-- The canonical base-`b` rendering of a number: its digits
most-significant first (empty for zero, as the digit-array pipeline
renders zero). -/
def baseRender (b v : Nat) : String :=
  ⟨(toLEDigits b v).reverse.map digitChar⟩

/-- A lowercase hexadecimal digit character. -/
def isLowerHexChar (c : Char) : Bool :=
  isDecChar c || (decide ('a' ≤ c) && decide (c ≤ 'f'))

/-- The ID strings of two neighbouring `generate()` calls in strictly
increasing order: both produced, numerically increasing and
lexicographically increasing. -/
def idLt (a b : Option String) : Prop :=
  ∃ sa sb, a = some sa ∧ b = some sb ∧ readStrBase 10 sa < readStrBase 10 sb
    ∧ List.Lex (· < ·) sa.data sb.data

/-- The clock readings of the monotonicity counterexample: the last two
milliseconds before the composed value crosses 10^23. -/
def c2Times : List Nat := [23283064365385, 23283064365386]

/-! ## Specification-side helpers and concrete scenarios -/

/-- The value of a little-endian digit array in base `b`. -/
def valB (b : Nat) (l : List Nat) : Nat :=
  l.foldr (fun d acc => d + b * acc) 0

/-- The service schema of the filtering scenario: a single boolean field
`status`, filterable. -/
def c1Service : ServiceModel :=
  { fields := [{ name := "status", type := "boolean", search := false, filter := true }],
    primaryColumnName := "id", primaryGenerated := "system" }

/-- The FilterSpec of the scenario: `isMatch` false, `values` true. -/
def c1Filter : JsVal :=
  .obj [("status", .obj [("isMatch", .bool false), ("values", .bool true)])]

/-- The params carrying only that filter. -/
def c1Params : QueryParams := { filter := c1Filter }

/-- The two entities of the scenario. -/
def c1Entities : List JsVal :=
  [.obj [("status", .bool true)], .obj [("status", .bool false)]]

/-- A service schema whose primary field is system-generated under the
column name `id`. -/
def sysService : ServiceModel :=
  { fields := [], primaryColumnName := "id", primaryGenerated := "system" }

/-- The single entity of the `insertMany` scenario (no primary value of
its own). -/
def c3Entities : List JsVal := [.obj [("x", .num 1)]]

/-- The stored collection of the `replaceById` scenario. -/
def c4Store : List JsVal := [.obj [("id", .str "A"), ("v", .num 1)]]

/-- The replacement document `replaceById` builds: the `id` key first,
the entity's own fields spread after it. -/
def replaceDocOf (id : JsVal) (entity : JsVal) : JsVal :=
  match entity with
  | .obj fs => .obj (objSpread [("id", id)] fs)
  | _ => .obj (objSpread [("id", id)] [])

/-! ## Association-list lemmas -/

/-- Writing a key makes it readable. -/
theorem fieldsGet_objPut_self (m : List (String × JsVal)) (k : String) (v : JsVal) :
    fieldsGet (objPut m k v) k = some v := by
  induction m with
  | nil => simp [objPut, fieldsGet]
  | cons kv rest ih =>
      obtain ⟨k0, v0⟩ := kv
      by_cases h : k0 = k <;> simp [objPut, fieldsGet, h, ih]

/-- Writing one key leaves the others unchanged. -/
theorem fieldsGet_objPut_ne (m : List (String × JsVal)) (k k2 : String) (v : JsVal)
    (h : k2 ≠ k) :
    fieldsGet (objPut m k v) k2 = fieldsGet m k2 := by
  have hkk : ¬ k = k2 := fun e => h e.symm
  induction m with
  | nil => simp [objPut, fieldsGet, hkk]
  | cons kv rest ih =>
      obtain ⟨k0, v0⟩ := kv
      by_cases h0 : k0 = k
      · subst h0
        simp [objPut, fieldsGet, hkk]
      · by_cases h2 : k0 = k2 <;> simp [objPut, fieldsGet, h0, h2, ih, h]

/-- A key bound nowhere in the list reads as absent. -/
theorem fieldsGet_eq_none_of_forall (fs : List (String × JsVal)) (k : String)
    (h : ∀ kv ∈ fs, kv.1 ≠ k) : fieldsGet fs k = none := by
  induction fs with
  | nil => rfl
  | cons kv rest ih =>
      have hk := h kv (List.mem_cons_self _ _)
      obtain ⟨k0, v0⟩ := kv
      simp only [fieldsGet, if_neg hk]
      exact ih (fun kv2 h2 => h kv2 (List.mem_cons_of_mem _ h2))

/-- An absent key means no entry binds it. -/
theorem forall_of_fieldsGet_eq_none (fs : List (String × JsVal)) (k : String)
    (h : fieldsGet fs k = none) : ∀ kv ∈ fs, kv.1 ≠ k := by
  induction fs with
  | nil => intro kv hkv; cases hkv
  | cons kv0 rest ih =>
      intro kv hkv
      by_cases he : kv0.1 = k
      · exfalso
        obtain ⟨k0, v0⟩ := kv0
        simp only [fieldsGet] at h
        rw [if_pos he] at h
        cases h
      · rcases List.mem_cons.mp hkv with rfl | hmem
        · exact he
        · obtain ⟨k0, v0⟩ := kv0
          simp only [fieldsGet] at h
          rw [if_neg he] at h
          exact ih h kv hmem

/-- Spreading fields that never bind `k` leaves `k`\'s reading at the
base object. -/
theorem fieldsGet_objSpread_of_none (base fs : List (String × JsVal)) (k : String) :
    fieldsGet fs k = none → fieldsGet (objSpread base fs) k = fieldsGet base k := by
  induction fs generalizing base with
  | nil => intro _; rfl
  | cons kv rest ih =>
      obtain ⟨k0, v0⟩ := kv
      intro h
      have hne : k0 ≠ k := forall_of_fieldsGet_eq_none _ _ h (k0, v0) (List.mem_cons_self _ _)
      have hrest : fieldsGet rest k = none := by
        simp only [fieldsGet, if_neg hne] at h
        exact h
      show fieldsGet (objSpread (objPut base k0 v0) rest) k = fieldsGet base k
      rw [ih (objPut base k0 v0) hrest, fieldsGet_objPut_ne _ _ _ _ (fun e => hne e.symm)]

/-- Spreading an object with unique keys puts its own binding of `k` in
front of whatever the base holds. -/
theorem fieldsGet_objSpread_of_some (base fs : List (String × JsVal)) (k : String) (v : JsVal) :
    (fs.map Prod.fst).Nodup → fieldsGet fs k = some v →
      fieldsGet (objSpread base fs) k = some v := by
  induction fs generalizing base with
  | nil => intro _ h; cases h
  | cons kv rest ih =>
      obtain ⟨k0, v0⟩ := kv
      intro hnd h
      simp only [List.map_cons, List.nodup_cons] at hnd
      by_cases he : k0 = k
      · subst he
        simp only [fieldsGet, if_pos rfl] at h
        have hrest : fieldsGet rest k0 = none := by
          refine fieldsGet_eq_none_of_forall _ _ (fun kv2 h2 => ?_)
          intro he2
          exact hnd.1 (he2 ▸ List.mem_map_of_mem Prod.fst h2)
        show fieldsGet (objSpread (objPut base k0 v0) rest) k0 = some v
        rw [fieldsGet_objSpread_of_none _ _ _ hrest, fieldsGet_objPut_self]
        exact h
      · simp only [fieldsGet, if_neg he] at h
        show fieldsGet (objSpread (objPut base k0 v0) rest) k = some v
        exact ih (objPut base k0 v0) hnd.2 h

/-! ## Per-entity helpers for the write operations -/

/-- Injecting into an entity that lacks the primary column: the copy
carries the generated ID under the primary column. -/
theorem addIdToEntity_fresh (svc : ServiceModel) (g : String) (fs : List (String × JsVal))
    (hgen : svc.primaryGenerated ≠ "user")
    (hcolnone : fieldsGet fs svc.primaryColumnName = none) :
    jsGet (addIdToEntity svc g (.obj fs)) svc.primaryColumnName = .str g := by
  simp only [addIdToEntity, if_pos hgen, jsGet]
  rw [fieldsGet_objSpread_of_none _ _ _ hcolnone]
  simp [fieldsGet]

/-- Injecting never creates an `_id` field when the entity lacks one and
the primary column is not `_id`. -/
theorem addIdToEntity_no_underscore_id (svc : ServiceModel) (g : String)
    (fs : List (String × JsVal))
    (hcol : svc.primaryColumnName ≠ "_id")
    (hid : fieldsGet fs "_id" = none) :
    jsGetOpt (addIdToEntity svc g (.obj fs)) "_id" = none := by
  by_cases hgen : svc.primaryGenerated ≠ "user"
  · simp only [addIdToEntity, if_pos hgen, jsGetOpt]
    rw [fieldsGet_objSpread_of_none _ _ _ hid]
    simp [fieldsGet, hcol]
  · simp only [addIdToEntity, if_neg hgen, jsGetOpt]
    exact hid

/-- Documents without their own `_id` receive consecutive fresh
ObjectIds from the driver. -/
theorem insertedIds_fresh (ds : List JsVal) (k : Nat)
    (h : ∀ d ∈ ds, jsGetOpt d "_id" = none) :
    ((List.range' k ds.length).zip ds).map (fun p => driverInsertedId p.1 p.2)
      = (List.range' k ds.length).map (fun i => JsVal.obj [("$oid", JsVal.num i)]) := by
  induction ds generalizing k with
  | nil => rfl
  | cons d rest ih =>
      have hd := h d (List.mem_cons_self _ _)
      simp only [List.length_cons, List.range'_succ, List.zip_cons_cons, List.map_cons]
      refine congrArg₂ _ ?_ (ih (k + 1) (fun d2 h2 => h d2 (List.mem_cons_of_mem _ h2)))
      simp [driverInsertedId, hd]

/-! ## Claim C1 -/

/-- C1 (code bug): with `status` filterable, the FilterSpec carrying
`isMatch` false and `values` true makes `processFilterParams` pass the
whole FilterSpec object to the strict builder, so the emitted predicate
equates `status` with the wrapper object and the find over the two
entities (status true, status false) returns neither — not the first
entity the claim promises.  The last conjunct shows that the predicate
the claim describes (equality against the filter's `values`, i.e.
`true`) would select exactly the first entity. -/
theorem C1_strict_filter_failing_input :
    processFilterParams c1Service c1Filter
        = [JsVal.obj [("status",
            JsVal.obj [("isMatch", JsVal.bool false), ("values", JsVal.bool true)])]]
      ∧ mongoFilter c1Entities (parseParams c1Service c1Params) = []
      ∧ mongoFilter c1Entities
            (JsVal.obj [("$and", JsVal.arr [JsVal.obj [("status", JsVal.bool true)]])])
          = [JsVal.obj [("status", JsVal.bool true)]] :=
  ⟨rfl, rfl, rfl⟩

/-! ## Claim C3 -/

/-- C3 counterexample: with a system-generated primary field,
`insertMany` with `returnEntities` returns the original entities — the
returned entity has no `id` field at all, while the persisted copy
carries the generated ID. -/
theorem C3_counterexample :
    (adapterInsertMany sysService ["G1"] [] c3Entities true).1 = c3Entities
      ∧ jsGetOpt (JsVal.obj [("x", JsVal.num 1)]) "id" = none
      ∧ (adapterInsertMany sysService ["G1"] [] c3Entities true).2
          = [JsVal.obj [("id", JsVal.str "G1"), ("x", JsVal.num 1)]] :=
  ⟨rfl, rfl, rfl⟩

/-- C3 amended: `insertMany` injects a fresh generated ID into a copy of
each entity and persists those copies; with `returnEntities` it returns
the original entities exactly as passed, without the injected IDs, and
otherwise it returns the driver's `insertedIds` — fresh ObjectIds rather
than the generated primary-key values whenever the primary column is not
`_id`. -/
theorem C3_insertMany_amended (svc : ServiceModel) (store : List JsVal)
    (entities : List JsVal) (genIds : List String)
    (hgen : svc.primaryGenerated ≠ "user")
    (hcol : svc.primaryColumnName ≠ "_id")
    (hent : ∀ e ∈ entities, ∃ fs, e = JsVal.obj fs
        ∧ fieldsGet fs svc.primaryColumnName = none ∧ fieldsGet fs "_id" = none) :
    (adapterInsertMany svc genIds store entities true).1 = entities
    ∧ (adapterInsertMany svc genIds store entities false).1
        = (List.range (entities.zip genIds).length).map
            (fun i => JsVal.obj [("$oid", JsVal.num i)])
    ∧ (adapterInsertMany svc genIds store entities true).2
        = store ++ (entities.zip genIds).map (fun p => addIdToEntity svc p.2 p.1)
    ∧ ∀ p ∈ entities.zip genIds,
        jsGet (addIdToEntity svc p.2 p.1) svc.primaryColumnName = JsVal.str p.2 := by
  have hmem : ∀ p ∈ entities.zip genIds, ∃ fs, p.1 = JsVal.obj fs
      ∧ fieldsGet fs svc.primaryColumnName = none ∧ fieldsGet fs "_id" = none := by
    intro p hp
    exact hent p.1 (List.of_mem_zip hp).1
  refine ⟨rfl, ?_, rfl, ?_⟩
  · show ((List.range ((entities.zip genIds).map
        (fun p => addIdToEntity svc p.2 p.1)).length).zip
          ((entities.zip genIds).map (fun p => addIdToEntity svc p.2 p.1))).map
        (fun p => driverInsertedId p.1 p.2) = _
    rw [List.range_eq_range']
    rw [insertedIds_fresh]
    · rw [List.length_map, List.range_eq_range']
    · intro d hd
      rcases List.mem_map.mp hd with ⟨p, hp, rfl⟩
      rcases hmem p hp with ⟨fs, hfs, _, hid⟩
      rw [hfs]
      exact addIdToEntity_no_underscore_id svc p.2 fs hcol hid
  · intro p hp
    rcases hmem p hp with ⟨fs, hfs, hcolnone, _⟩
    rw [hfs]
    exact addIdToEntity_fresh svc p.2 fs hgen hcolnone

/-- C3 amended, at a concrete input: a single fresh entity, one
generated ID. -/
theorem C3_insertMany_amended_witness :
    (adapterInsertMany sysService ["G1"] [] c3Entities true).1 = c3Entities :=
  (C3_insertMany_amended sysService [] c3Entities ["G1"]
    (by decide) (by decide)
    (by
      intro e he
      rw [show c3Entities = [JsVal.obj [("x", JsVal.num 1)]] from rfl, List.mem_singleton] at he
      subst he
      exact ⟨[("x", JsVal.num 1)], rfl, rfl, rfl⟩)).1

/-! ## Claim C4 -/

/-- C4 counterexample: `replaceById` with the id argument `A` and an
entity carrying its own `id` field `B` stores and returns a document
whose primary field is `B`, not the id argument. -/
theorem C4_counterexample :
    (replaceById c4Store (.str "A") (.obj [("id", .str "B")])).2
        = [JsVal.obj [("id", JsVal.str "B")]]
      ∧ (replaceById c4Store (.str "A") (.obj [("id", .str "B")])).1
          = some (JsVal.obj [("id", JsVal.str "B")])
      ∧ ("B" : String) ≠ "A" :=
  ⟨rfl, rfl, by decide⟩

/-- A successful `findOneAndReplace` hands back exactly the replacement
document. -/
theorem findOneAndReplace_value (store : List JsVal) (q e d : JsVal) :
    (findOneAndReplace store q e).1 = some d → d = e := by
  induction store with
  | nil => intro h; cases h
  | cons d0 rest ih =>
      intro h
      simp only [findOneAndReplace] at h
      by_cases hm : matchQuery q d0
      · rw [if_pos hm] at h
        cases h
        rfl
      · rw [if_neg hm] at h
        exact ih h

/-- C4 amended: the replacement document keeps the id argument under the
primary key only when the entity has no `id` field of its own; an `id`
inside the entity overrides the argument, because the entity is spread
after the `id` key. -/
theorem C4_replaceById_amended (store : List JsVal) (id : JsVal)
    (fs : List (String × JsVal)) (hnd : (fs.map Prod.fst).Nodup) :
    (fieldsGet fs "id" = none → jsGet (replaceDocOf id (.obj fs)) "id" = id)
    ∧ (∀ v, fieldsGet fs "id" = some v → jsGet (replaceDocOf id (.obj fs)) "id" = v)
    ∧ (∀ d, (replaceById store id (.obj fs)).1 = some d → d = replaceDocOf id (.obj fs)) := by
  refine ⟨?_, ?_, ?_⟩
  · intro h
    simp only [replaceDocOf, jsGet]
    rw [fieldsGet_objSpread_of_none _ _ _ h]
    simp [fieldsGet]
  · intro v h
    simp only [replaceDocOf, jsGet]
    rw [fieldsGet_objSpread_of_some _ _ _ _ hnd h]
    rfl
  · intro d h
    exact findOneAndReplace_value _ _ _ _ h

/-- C4 amended, at a concrete input: an entity with its own `id` wins
over the id argument. -/
theorem C4_replaceById_amended_witness :
    jsGet (replaceDocOf (.str "A") (.obj [("id", JsVal.str "B")])) "id" = JsVal.str "B" :=
  (C4_replaceById_amended c4Store (.str "A") [("id", JsVal.str "B")]
    (by decide)).2.1 (JsVal.str "B") rfl

/-! ## Claim C8 -/

/-- C8 (registry operations modelled from the spec): when no client is
registered for the identity key and the physical connect fails, the
adapter's `connect` removes the entry it registered and rethrows the
very same error, leaving the registry exactly as it found it, with no
entry under the key. -/
theorem C8_connect_failure_rollback (store : GlobalStore) (key : String)
    (newClient : Nat) (err : ConnError)
    (h : getClientFromGlobalStore store key = none) :
    connectModel store key newClient (.error err) = (.error err, store)
    ∧ getClientFromGlobalStore
        (connectModel store key newClient (.error err)).2 key = none := by
  have h2 : connectModel store key newClient (.error err) = (.error err, store) := by
    unfold connectModel
    rw [h]
    simp [setClientToGlobalStore, removeAdapterFromClientGlobalStore]
  exact ⟨h2, by rw [h2]; exact h⟩

/-- C8 at a concrete input: an empty registry, one failing connect. -/
theorem C8_connect_failure_rollback_witness :
    connectModel [] "mongodb|mongodb://localhost:27017" 1 (.error ⟨"refused"⟩)
      = (.error ⟨"refused"⟩, []) :=
  (C8_connect_failure_rollback [] "mongodb|mongodb://localhost:27017" 1 ⟨"refused"⟩ rfl).1

/-! ## Claim C9 -/

/-- C9: an entity that already carries a value under the primary column
keeps it — the generated ID is written first and the entity's fields are
spread over it — and both `insert` and `insertMany` persist the copy
carrying the caller's value. -/
theorem C9_caller_primary_value_wins (svc : ServiceModel) (g : String) (store : List JsVal)
    (fs : List (String × JsVal)) (v : JsVal)
    (hgen : svc.primaryGenerated ≠ "user")
    (hnd : (fs.map Prod.fst).Nodup)
    (hv : fieldsGet fs svc.primaryColumnName = some v) :
    jsGet (addIdToEntity svc g (.obj fs)) svc.primaryColumnName = v
    ∧ adapterInsert svc g store (.obj fs)
        = (addIdToEntity svc g (.obj fs), store ++ [addIdToEntity svc g (.obj fs)])
    ∧ (adapterInsertMany svc [g] store [.obj fs] true).2
        = store ++ [addIdToEntity svc g (.obj fs)] := by
  refine ⟨?_, rfl, rfl⟩
  simp only [addIdToEntity, if_pos hgen, jsGet]
  rw [fieldsGet_objSpread_of_some _ _ _ _ hnd hv]
  rfl

/-- C9 at a concrete input: the caller's `id` value `MINE` survives both
the injection and the persist. -/
theorem C9_caller_primary_value_wins_witness :
    jsGet (addIdToEntity sysService "G1" (.obj [("id", JsVal.str "MINE")]))
      "id" = JsVal.str "MINE" :=
  (C9_caller_primary_value_wins sysService "G1" [] [("id", JsVal.str "MINE")]
    (JsVal.str "MINE") (by decide) (by decide) rfl).1

/-! ## Claim C10 -/

/-- C10: `count` with a truthy hint calls `.hint` on the promise that
`countDocuments` returned, which has no such method — the call fails
with a TypeError instead of producing a number; without a hint, `count`
runs `countDocuments` over exactly the `parseParams` translation that
`find` uses, with no sort, offset or limit applied. -/
theorem C10_count_hint (svc : ServiceModel) (p q : QueryParams)
    (hp : jsTruthy p.hint = true) (hq : jsTruthy q.hint = false) :
    adapterCount svc (some p) = .error (.typeError "q.hint is not a function")
    ∧ adapterCount svc (some q) = .ok (.countPromise (parseParams svc q))
    ∧ ∃ c, adapterFind svc (some q) = .ok c ∧ hasSortMethod c = true
        ∧ queryOf c = parseParams svc q := by
  refine ⟨?_, ?_, ?_⟩
  · show createQuery svc (some p) true = _
    simp [createQuery, hp, applyHint]
  · show createQuery svc (some q) true = _
    simp [createQuery, hq]
  · have step2 : ∀ (c : QueryObj) (s cl : Option JsVal) (k l : Option Int)
        (h : Option JsVal) (off : JsVal),
        c = QueryObj.cursor (parseParams svc q) s cl k l h →
        ∃ k2, applyOffset c off = QueryObj.cursor (parseParams svc q) s cl k2 l h := by
      rintro c s2 cl2 k l h off rfl
      cases off <;> simp only [applyOffset]
      case num n => split <;> exact ⟨_, rfl⟩
      all_goals exact ⟨_, rfl⟩
    have step3 : ∀ (c : QueryObj) (s cl : Option JsVal) (k l : Option Int)
        (h : Option JsVal) (lim : JsVal),
        c = QueryObj.cursor (parseParams svc q) s cl k l h →
        ∃ l2, applyLimit c lim = QueryObj.cursor (parseParams svc q) s cl k l2 h := by
      rintro c s2 cl2 k l h lim rfl
      cases lim <;> simp only [applyLimit]
      case num n => split <;> exact ⟨_, rfl⟩
      all_goals exact ⟨_, rfl⟩
    show ∃ c, createQuery svc (some q) false = .ok c ∧ _ ∧ _
    simp only [createQuery, hq, Bool.false_eq_true, if_false, if_true, not_false_eq_true, true_and]
    have hshape : ∃ s0 cl0,
        (if jsTruthy q.sort = true ∧
            hasSortMethod (QueryObj.cursor (parseParams svc q) none none none none none) = true then
          applySortCollation (QueryObj.cursor (parseParams svc q) none none none none none)
            (transformSort q.sort) q.collation
        else QueryObj.cursor (parseParams svc q) none none none none none)
          = QueryObj.cursor (parseParams svc q) s0 cl0 none none none := by
      split
      · exact ⟨_, _, rfl⟩
      · exact ⟨none, none, rfl⟩
    obtain ⟨s0, cl0, hX⟩ := hshape
    obtain ⟨k2, h2⟩ := step2 _ s0 cl0 none none none q.offset hX
    obtain ⟨l2, h3⟩ := step3 _ s0 cl0 k2 none none q.limit h2
    refine ⟨_, rfl, ?_, ?_⟩ <;> rw [h3] <;> rfl

/-- C10 at a concrete input: a hint makes `count` throw; without one it
counts over the translated query. -/
theorem C10_count_hint_witness :
    adapterCount sysService (some { hint := JsVal.str "h" })
      = .error (.typeError "q.hint is not a function") :=
  (C10_count_hint sysService { hint := JsVal.str "h" } {} rfl rfl).1

/-! ## Reading digit strings -/

/-- The fold of `readLC` from an arbitrary accumulator. -/
theorem readLC_go (b : Nat) (l : List Char) (a : Nat) :
    l.foldl (fun acc c => acc * b + digitVal c) a = a * b ^ l.length + readLC b l := by
  induction l generalizing a with
  | nil => simp [readLC]
  | cons c cs ih =>
      show cs.foldl _ (a * b + digitVal c) = _
      rw [ih (a * b + digitVal c)]
      have hr : readLC b (c :: cs) = digitVal c * b ^ cs.length + readLC b cs := by
        show cs.foldl _ (0 * b + digitVal c) = _
        rw [ih (0 * b + digitVal c)]
        ring
      rw [hr]
      simp [List.length_cons, pow_succ]
      ring

/-- Reading a head digit. -/
theorem readLC_cons (b : Nat) (c : Char) (cs : List Char) :
    readLC b (c :: cs) = digitVal c * b ^ cs.length + readLC b cs := by
  show cs.foldl _ (0 * b + digitVal c) = _
  rw [readLC_go]
  ring

/-- Reading a concatenation. -/
theorem readLC_append (b : Nat) (xs ys : List Char) :
    readLC b (xs ++ ys) = readLC b xs * b ^ ys.length + readLC b ys := by
  show (xs ++ ys).foldl _ 0 = _
  rw [List.foldl_append]
  exact readLC_go b ys _

/-- Leading zero characters do not change the reading. -/
theorem readLC_replicate_zero (b n : Nat) (xs : List Char) :
    readLC b (List.replicate n '0' ++ xs) = readLC b xs := by
  rw [readLC_append]
  have h0 : readLC b (List.replicate n '0') = 0 := by
    induction n with
    | zero => rfl
    | succ m ih =>
        rw [List.replicate_succ, readLC_cons, ih]
        simp [digitVal]
  rw [h0]
  simp

/-- A string of digits below the base reads below `b ^ length`. -/
theorem readLC_lt (b : Nat) (l : List Char) (hb : 1 ≤ b)
    (h : ∀ c ∈ l, digitVal c < b) : readLC b l < b ^ l.length := by
  induction l with
  | nil => simp [readLC]
  | cons c cs ih =>
      rw [readLC_cons]
      have h1 : digitVal c < b := h c (List.mem_cons_self _ _)
      have h2 : readLC b cs < b ^ cs.length := ih (fun x hx => h x (List.mem_cons_of_mem _ hx))
      have h3 : digitVal c * b ^ cs.length + readLC b cs < (digitVal c + 1) * b ^ cs.length := by
        nlinarith [h2]
      calc digitVal c * b ^ cs.length + readLC b cs
          < (digitVal c + 1) * b ^ cs.length := h3
        _ ≤ b * b ^ cs.length := by
            exact Nat.mul_le_mul_right _ (by omega)
        _ = b ^ (c :: cs).length := by rw [List.length_cons]; ring

/-- `digitVal` inverts `digitChar` on values below 16. -/
theorem digitVal_digitChar (d : Nat) (h : d < 16) : digitVal (digitChar d) = d := by
  interval_cases d <;> decide

/-- `digitChar` of a value below 10 is a decimal digit character. -/
theorem isDecChar_digitChar (d : Nat) (h : d < 10) : isDecChar (digitChar d) = true := by
  interval_cases d <;> decide

/-- `digitChar` of a value below 16 is a lowercase hexadecimal digit. -/
theorem isLowerHexChar_digitChar (d : Nat) (h : d < 16) :
    isLowerHexChar (digitChar d) = true := by
  interval_cases d <;> decide

/-! ## The canonical digit expansion -/

/-- `toLEDigitsAux` ignores the fuel once it dominates the number. -/
theorem toLEDigitsAux_congr (b : Nat) : ∀ n f1 f2, n ≤ f1 → n ≤ f2 →
    toLEDigitsAux b f1 n = toLEDigitsAux b f2 n := by
  intro n
  induction n using Nat.strong_induction_on with
  | _ n ih =>
    intro f1 f2 h1 h2
    by_cases hb : b ≤ 1
    · cases f1 <;> cases f2 <;> simp [toLEDigitsAux, hb]
    · match f1, f2 with
      | 0, 0 => rfl
      | 0, f2 + 1 =>
          have : n = 0 := by omega
          subst this
          simp [toLEDigitsAux]
      | f1 + 1, 0 =>
          have : n = 0 := by omega
          subst this
          simp [toLEDigitsAux]
      | f1 + 1, f2 + 1 =>
          by_cases hn : n = 0
          · subst hn; simp [toLEDigitsAux]
          · have hdiv : n / b < n := Nat.div_lt_self (Nat.pos_of_ne_zero hn) (by omega)
            simp only [toLEDigitsAux, if_neg hb, if_neg hn]
            rw [ih (n / b) hdiv f1 f2 (by omega) (by omega)]

/-- The characteristic equation of `toLEDigits`. -/
theorem toLEDigits_eq (b n : Nat) (hb : 2 ≤ b) :
    toLEDigits b n = if n = 0 then [] else (n % b) :: toLEDigits b (n / b) := by
  show toLEDigitsAux b n n = _
  by_cases hn : n = 0
  · subst hn; rfl
  · obtain ⟨m, rfl⟩ : ∃ m, n = m + 1 := ⟨n - 1, by omega⟩
    have hdiv : (m + 1) / b ≤ m := by
      have := Nat.div_lt_self (show 0 < m + 1 by omega) (show 1 < b by omega)
      omega
    simp only [toLEDigitsAux, if_neg (show ¬ b ≤ 1 by omega), if_neg hn]
    rw [toLEDigitsAux_congr b ((m + 1) / b) m ((m + 1) / b) hdiv (le_refl _)]
    rfl

/-- The expansion values back to the number. -/
theorem valB_toLEDigits (b : Nat) (hb : 2 ≤ b) : ∀ n, valB b (toLEDigits b n) = n := by
  intro n
  induction n using Nat.strong_induction_on with
  | _ n ih =>
    rw [toLEDigits_eq b n hb]
    by_cases hn : n = 0
    · subst hn; simp [valB]
    · rw [if_neg hn]
      have hdiv : n / b < n := Nat.div_lt_self (Nat.pos_of_ne_zero hn) (by omega)
      show n % b + b * valB b (toLEDigits b (n / b)) = n
      rw [ih (n / b) hdiv]
      exact Nat.mod_add_div n b

/-- Every digit of the expansion is below the base. -/
theorem toLEDigits_digits_lt (b : Nat) (hb : 2 ≤ b) : ∀ n, ∀ d ∈ toLEDigits b n, d < b := by
  intro n
  induction n using Nat.strong_induction_on with
  | _ n ih =>
    intro d hd
    rw [toLEDigits_eq b n hb] at hd
    by_cases hn : n = 0
    · subst hn; cases hd
    · rw [if_neg hn] at hd
      rcases List.mem_cons.mp hd with rfl | hmem
      · exact Nat.mod_lt _ (by omega)
      · exact ih (n / b) (Nat.div_lt_self (Nat.pos_of_ne_zero hn) (by omega)) d hmem

/-- Numbers below `b ^ k` have at most `k` digits. -/
theorem toLEDigits_length_le (b : Nat) (hb : 2 ≤ b) :
    ∀ k n, n < b ^ k → (toLEDigits b n).length ≤ k := by
  intro k
  induction k with
  | zero =>
      intro n h
      have : n = 0 := by simpa using h
      subst this
      rw [toLEDigits_eq b 0 hb]
      simp
  | succ k ih =>
      intro n h
      rw [toLEDigits_eq b n hb]
      by_cases hn : n = 0
      · simp [hn]
      · rw [if_neg hn, List.length_cons]
        have : n / b < b ^ k := by
          rw [Nat.div_lt_iff_lt_mul (show 0 < b by omega)]
          calc n < b ^ (k + 1) := h
            _ = b ^ k * b := by ring
        exact Nat.succ_le_succ (ih (n / b) this)

/-- Numbers of at least `b ^ k` have more than `k` digits. -/
theorem toLEDigits_length_ge (b : Nat) (hb : 2 ≤ b) :
    ∀ k n, b ^ k ≤ n → k + 1 ≤ (toLEDigits b n).length := by
  intro k
  induction k with
  | zero =>
      intro n h
      have h1 : (1 : Nat) ≤ n := by simpa using h
      have hn : n ≠ 0 := by omega
      rw [toLEDigits_eq b n hb, if_neg hn]
      simp
  | succ k ih =>
      intro n h
      have hpow : 0 < b ^ (k + 1) := by positivity
      have hn : n ≠ 0 := by omega
      rw [toLEDigits_eq b n hb, if_neg hn, List.length_cons]
      have : b ^ k ≤ n / b := by
        rw [Nat.le_div_iff_mul_le (show 0 < b by omega)]
        calc b ^ k * b = b ^ (k + 1) := by ring
          _ ≤ n := h
      exact Nat.succ_le_succ (ih (n / b) this)

/-! ## The digit arrays of `convertBase` stay canonical

Every digit array the converter manipulates equals `toLEDigits` of its
value, which pins down the converter's output exactly. -/

/-- Zero expands to the empty array. -/
theorem toLEDigits_zero (b : Nat) : toLEDigits b 0 = [] := rfl

/-- Reading off the components of a canonical cons cell. -/
theorem canon_cons (b : Nat) (hb : 2 ≤ b) (d : Nat) (l : List Nat)
    (h : d :: l = toLEDigits b (valB b (d :: l))) :
    d < b ∧ l = toLEDigits b (valB b l) := by
  have hval : valB b (d :: l) = d + b * valB b l := rfl
  rw [toLEDigits_eq _ _ hb] at h
  by_cases h0 : valB b (d :: l) = 0
  · rw [if_pos h0] at h; cases h
  · rw [if_neg h0] at h
    have h1 : d = valB b (d :: l) % b := (List.cons.injEq _ _ _ _).mp h |>.1
    have h2 : l = toLEDigits b (valB b (d :: l) / b) := (List.cons.injEq _ _ _ _).mp h |>.2
    have hdlt : d < b := by
      rw [h1]; exact Nat.mod_lt _ (by omega)
    refine ⟨hdlt, ?_⟩
    have hdiv : valB b (d :: l) / b = valB b l := by
      rw [hval, Nat.add_mul_div_left _ _ (show 0 < b by omega), Nat.div_eq_of_lt hdlt]
      omega
    rw [hdiv] at h2
    exact h2

/-- `addTail` of a canonical array is canonical with the summed value. -/
theorem addTail_canon (b : Nat) (hb : 2 ≤ b) :
    ∀ (y : List Nat) (c : Nat), y = toLEDigits b (valB b y) →
      addTail b y c = toLEDigits b (valB b y + c) := by
  intro y
  induction y with
  | nil =>
      intro c _
      show (if c = 0 then [] else toLEDigits b c) = toLEDigits b (valB b ([] : List Nat) + c)
      have : valB b ([] : List Nat) = 0 := rfl
      rw [this, Nat.zero_add]
      by_cases hc : c = 0
      · rw [if_pos hc, hc, toLEDigits_zero]
      · rw [if_neg hc]
  | cons d ds ih =>
      intro c h
      obtain ⟨hd, hds⟩ := canon_cons b hb d ds h
      show ((c + d) % b) :: addTail b ds ((c + d) / b) = _
      have hval : valB b (d :: ds) + c = (c + d) + b * valB b ds := by
        show (d + b * valB b ds) + c = _; ring
      by_cases hz : valB b (d :: ds) + c = 0
      · exfalso
        have : valB b (d :: ds) = 0 := by omega
        rw [this, toLEDigits_zero] at h
        cases h
      · rw [ih ((c + d) / b) hds, hval,
          toLEDigits_eq b ((c + d) + b * valB b ds) hb, if_neg (by omega),
          Nat.add_mul_mod_self_left, Nat.add_mul_div_left _ _ (show 0 < b by omega)]
        congr 1
        exact congrArg (toLEDigits b) (by ring)

/-- `add` of canonical arrays is canonical with the summed value. -/
theorem addDigits_canon (b : Nat) (hb : 2 ≤ b) :
    ∀ (x y : List Nat) (c : Nat), x = toLEDigits b (valB b x) → y = toLEDigits b (valB b y) →
      addDigits b x y c = toLEDigits b (valB b x + valB b y + c) := by
  intro x
  induction x with
  | nil =>
      intro y c _ hy
      show addTail b y c = _
      rw [addTail_canon b hb y c hy]
      have : valB b ([] : List Nat) = 0 := rfl
      rw [this, Nat.zero_add]
  | cons d xs ih =>
      intro y c h hy
      obtain ⟨hd, hxs⟩ := canon_cons b hb d xs h
      have hcx : valB b (d :: xs) = d + b * valB b xs := rfl
      cases y with
      | nil =>
          show ((c + d) % b) :: addDigits b xs [] ((c + d) / b) = _
          have hv0 : valB b ([] : List Nat) = 0 := rfl
          have harr : valB b (d :: xs) + valB b ([] : List Nat) + c
              = (c + d) + b * valB b xs := by rw [hcx, hv0]; ring
          by_cases hz : valB b (d :: xs) + valB b ([] : List Nat) + c = 0
          · exfalso
            have : valB b (d :: xs) = 0 := by omega
            rw [this, toLEDigits_zero] at h
            cases h
          · rw [ih [] ((c + d) / b) hxs rfl, harr,
              toLEDigits_eq b ((c + d) + b * valB b xs) hb, if_neg (by omega),
              Nat.add_mul_mod_self_left, Nat.add_mul_div_left _ _ (show 0 < b by omega)]
            congr 1
            exact congrArg (toLEDigits b) (by rw [hv0]; ring)
      | cons e ys =>
          obtain ⟨he, hys⟩ := canon_cons b hb e ys hy
          have hcy : valB b (e :: ys) = e + b * valB b ys := rfl
          show ((c + d + e) % b) :: addDigits b xs ys ((c + d + e) / b) = _
          have harr : valB b (d :: xs) + valB b (e :: ys) + c
              = (c + d + e) + b * (valB b xs + valB b ys) := by rw [hcx, hcy]; ring
          by_cases hz : valB b (d :: xs) + valB b (e :: ys) + c = 0
          · exfalso
            have hey : valB b (e :: ys) = e + b * valB b ys := rfl
            have : valB b (d :: xs) = 0 := by omega
            rw [this, toLEDigits_zero] at h
            cases h
          · rw [ih ys ((c + d + e) / b) hxs hys, harr,
              toLEDigits_eq b ((c + d + e) + b * (valB b xs + valB b ys)) hb, if_neg (by omega),
              Nat.add_mul_mod_self_left, Nat.add_mul_div_left _ _ (show 0 < b by omega)]
            congr 1
            exact congrArg (toLEDigits b) (by ring)

/-- `jsAdd` of canonical arrays. -/
theorem jsAdd_canon (b : Nat) (hb : 2 ≤ b) (x y : List Nat)
    (hx : x = toLEDigits b (valB b x)) (hy : y = toLEDigits b (valB b y)) :
    jsAdd x y b = toLEDigits b (valB b x + valB b y) := by
  show addDigits b x y 0 = _
  rw [addDigits_canon b hb x y 0 hx hy, Nat.add_zero]

/-- The expansion of any value is itself canonical. -/
theorem canon_toLE (b : Nat) (hb : 2 ≤ b) (v : Nat) :
    toLEDigits b v = toLEDigits b (valB b (toLEDigits b v)) := by
  rw [valB_toLEDigits b hb]

/-- The multiply loop of canonical arrays. -/
theorem mulLoopAux_canon (b : Nat) (hb : 2 ≤ b) :
    ∀ (fuel num : Nat) (power result : List Nat), 1 ≤ num → num ≤ fuel →
      power = toLEDigits b (valB b power) → result = toLEDigits b (valB b result) →
      mulLoopAux b fuel num power result
        = toLEDigits b (valB b result + num * valB b power) := by
  intro fuel
  induction fuel with
  | zero => intro num _ _ h1 h2 _ _; omega
  | succ fuel ih =>
      intro num power result h1 h2 hp hr
      show (if num / 2 = 0 then _ else _) = _
      have hr2 : (if num % 2 = 1 then jsAdd result power b else result)
          = toLEDigits b (valB b result + (num % 2) * valB b power) := by
        by_cases ho : num % 2 = 1
        · rw [if_pos ho, jsAdd_canon b hb _ _ hr hp, ho, Nat.one_mul]
        · have he : num % 2 = 0 := by omega
          rw [if_neg ho, he, Nat.zero_mul, Nat.add_zero]
          exact hr
      by_cases h0 : num / 2 = 0
      · rw [if_pos h0, hr2]
        have : num = 1 := by omega
        rw [this]
      · rw [if_neg h0, hr2]
        have hfuel : num / 2 ≤ fuel := by
          have := Nat.div_lt_self (show 0 < num by omega) (show 1 < 2 by omega)
          omega
        rw [ih (num / 2) (jsAdd power power b)
              (toLEDigits b (valB b result + num % 2 * valB b power))
              (by omega) hfuel
              (by rw [jsAdd_canon b hb _ _ hp hp]; exact canon_toLE b hb _)
              (canon_toLE b hb _)]
        rw [jsAdd_canon b hb _ _ hp hp, valB_toLEDigits b hb, valB_toLEDigits b hb]
        have hsplit : 2 * (num / 2) + num % 2 = num := Nat.div_add_mod num 2
        have key : ∀ vr vp q r : Nat, vr + r * vp + q * (vp + vp) = vr + (2 * q + r) * vp := by
          intro vr vp q r; ring
        rw [show valB b result + num % 2 * valB b power
              + num / 2 * (valB b power + valB b power)
            = valB b result + (2 * (num / 2) + num % 2) * valB b power from
            key _ _ _ _, hsplit]

/-- `multiplyByNumber` of a canonical array. -/
theorem multiplyByNumber_canon (b : Nat) (hb : 2 ≤ b) (num : Nat) (x : List Nat)
    (hx : x = toLEDigits b (valB b x)) :
    multiplyByNumber num x b = toLEDigits b (num * valB b x) := by
  show (if num = 0 then [] else mulLoopAux b num num x []) = _
  by_cases h0 : num = 0
  · rw [if_pos h0, h0, Nat.zero_mul, toLEDigits_zero]
  · rw [if_neg h0,
      mulLoopAux_canon b hb num num x [] (by omega) (le_refl _) hx rfl]
    show toLEDigits b (0 + num * valB b x) = _
    rw [Nat.zero_add]

/-- The accumulation loop of `convertBase` over canonical state. -/
theorem convertFold_canon (fB tB : Nat) (htB : 2 ≤ tB) :
    ∀ (ds : List Nat) (out power : List Nat),
      out = toLEDigits tB (valB tB out) → power = toLEDigits tB (valB tB power) →
      (ds.foldl (convertBaseStep fB tB) (out, power)).1
        = toLEDigits tB (valB tB out + valB fB ds * valB tB power) := by
  intro ds
  induction ds with
  | nil =>
      intro out power hout _
      show out = toLEDigits tB (valB tB out + valB fB [] * valB tB power)
      have : valB fB ([] : List Nat) = 0 := rfl
      rw [this, Nat.zero_mul, Nat.add_zero]
      exact hout
  | cons d ds ih =>
      intro out power hout hpower
      show (ds.foldl (convertBaseStep fB tB) (convertBaseStep fB tB (out, power) d)).1 = _
      have hout2 : (convertBaseStep fB tB (out, power) d).1
          = toLEDigits tB (valB tB out + d * valB tB power) := by
        show (if d ≠ 0 then jsAdd out (multiplyByNumber d power tB) tB else out) = _
        by_cases hd : d = 0
        · simp only [hd, ne_eq, not_true_eq_false, if_false, Nat.zero_mul, Nat.add_zero]
          exact hout
        · rw [if_pos hd,
            jsAdd_canon tB htB _ _ hout
              (by rw [multiplyByNumber_canon tB htB d power hpower]; exact canon_toLE tB htB _),
            multiplyByNumber_canon tB htB d power hpower, valB_toLEDigits tB htB]
      have hpow2 : (convertBaseStep fB tB (out, power) d).2
          = toLEDigits tB (fB * valB tB power) := by
        show multiplyByNumber fB power tB = _
        exact multiplyByNumber_canon tB htB fB power hpower
      have hstep : convertBaseStep fB tB (out, power) d
          = (toLEDigits tB (valB tB out + d * valB tB power),
             toLEDigits tB (fB * valB tB power)) := by
        exact Prod.ext hout2 hpow2
      rw [hstep, ih _ _ (canon_toLE tB htB _) (canon_toLE tB htB _),
        valB_toLEDigits tB htB, valB_toLEDigits tB htB]
      have : valB tB out + d * valB tB power + valB fB ds * (fB * valB tB power)
          = valB tB out + (d + fB * valB fB ds) * valB tB power := by ring
      rw [this]
      rfl

/-! ## Rendering and parsing digit arrays -/

/-- Appending a top digit to a little-endian array. -/
theorem valB_append_singleton (b : Nat) (l : List Nat) (a : Nat) :
    valB b (l ++ [a]) = valB b l + a * b ^ l.length := by
  induction l with
  | nil => show a + b * 0 = 0 + a * 1; ring
  | cons d ds ih =>
      show d + b * valB b (ds ++ [a]) = (d + b * valB b ds) + a * b ^ (d :: ds).length
      rw [ih, List.length_cons]
      ring

/-- Reading the big-endian rendering of a little-endian digit array. -/
theorem readLC_map_digitChar_reverse (b : Nat) (l : List Nat) (h : ∀ d ∈ l, d < 16) :
    readLC b ((l.map digitChar).reverse) = valB b l := by
  induction l with
  | nil => rfl
  | cons d ds ih =>
      rw [List.map_cons, List.reverse_cons, readLC_append]
      have h1 : readLC b [digitChar d] = d := by
        rw [readLC_cons]
        show digitVal (digitChar d) * b ^ 0 + readLC b [] = d
        rw [digitVal_digitChar d (h d (List.mem_cons_self _ _))]
        show d * 1 + 0 = d
        ring
      rw [h1, ih (fun x hx => h x (List.mem_cons_of_mem _ hx))]
      show valB b ds * b ^ 1 + d = d + b * valB b ds
      ring

/-- The little-endian digit values of a reversed character list. -/
theorem valB_reverse_map_digitVal (b : Nat) (l : List Char) :
    valB b (l.reverse.map digitVal) = readLC b l := by
  induction l with
  | nil => rfl
  | cons c cs ih =>
      rw [List.reverse_cons, List.map_append, List.map_cons, List.map_nil,
        valB_append_singleton, ih, readLC_cons]
      simp only [List.length_map, List.length_reverse]
      ring

/-- `parseInt` of a rendered digit character recovers its value. -/
theorem parseDigitChar_digitChar (d : Nat) (h : d < 16) :
    parseDigitChar (digitChar d) 16 = some d := by
  interval_cases d <;> decide

/-- `mapM` over uniformly successful parses. -/
theorem mapM_of_forall_some (p : Char → Option Nat) (f : Char → Nat) :
    ∀ (l : List Char), (∀ c ∈ l, p c = some (f c)) → l.mapM p = some (l.map f) := by
  intro l
  induction l with
  | nil => intro _; rfl
  | cons c cs ih =>
      intro h
      rw [List.mapM_cons, h c (List.mem_cons_self _ _),
        ih (fun x hx => h x (List.mem_cons_of_mem _ hx))]
      rfl

/-- `parseToDigitsArray` on a string of valid digits. -/
theorem parseToDigitsArray_spec (s : String) (fB : Nat)
    (h : ∀ c ∈ s.data, parseDigitChar c fB = some (digitVal c)) :
    parseToDigitsArray s fB = some (s.data.reverse.map digitVal) := by
  show s.data.reverse.mapM (fun c => parseDigitChar c fB) = _
  exact mapM_of_forall_some _ _ _ (fun c hc => h c (List.mem_reverse.mp hc))

/-- `toString(radix)` of a single digit is its character. -/
theorem jsNatToString_digit (b d : Nat) (hb : 2 ≤ b) (hd : d < b) (hb16 : b ≤ 16) :
    jsNatToString b d = ⟨[digitChar d]⟩ := by
  show (if d = 0 then "0" else ⟨(toLEDigits b d).reverse.map digitChar⟩) = _
  by_cases h0 : d = 0
  · subst h0
    rw [if_pos rfl]
    show "0" = ⟨['0']⟩
    rfl
  · rw [if_neg h0]
    have hexp : toLEDigits b d = [d] := by
      rw [toLEDigits_eq b d hb, if_neg h0, Nat.mod_eq_of_lt hd, Nat.div_eq_of_lt hd,
        toLEDigits_zero]
    rw [hexp]
    rfl

/-- Folding string concatenation collects the character data. -/
theorem foldl_append_data : ∀ (ls : List String) (acc : String),
    (ls.foldl (· ++ ·) acc).data = acc.data ++ (ls.map String.data).flatten := by
  intro ls
  induction ls with
  | nil => intro acc; simp
  | cons s rest ih =>
      intro acc
      show (rest.foldl (· ++ ·) (acc ++ s)).data = _
      rw [ih (acc ++ s)]
      simp [String.data_append]

/-- Joining the per-digit renderings of an array of digits below the
base yields the character rendering. -/
theorem join_digit_strings (b : Nat) (hb : 2 ≤ b) (hb16 : b ≤ 16) (l : List Nat)
    (h : ∀ d ∈ l, d < b) :
    String.join (l.map (fun d => jsNatToString b d)) = ⟨l.map digitChar⟩ := by
  have hmap : l.map (fun d => jsNatToString b d) = l.map (fun d => (⟨[digitChar d]⟩ : String)) :=
    List.map_congr_left (fun d hd => jsNatToString_digit b d hb (h d hd) hb16)
  have hdata : (String.join (l.map (fun d => jsNatToString b d))).data = l.map digitChar := by
    rw [hmap]
    show ((l.map (fun d => (⟨[digitChar d]⟩ : String))).foldl (· ++ ·) "").data = _
    rw [foldl_append_data]
    show (List.map String.data (l.map fun d => (⟨[digitChar d]⟩ : String))).flatten = _
    rw [List.map_map]
    induction l with
    | nil => rfl
    | cons d ds ihl =>
        rw [List.map_cons, List.flatten_cons, List.map_cons]
        show [digitChar d] ++ _ = digitChar d :: ds.map digitChar
        rw [ihl (fun x hx => h x (List.mem_cons_of_mem _ hx))
          (List.map_congr_left (fun d2 hd2 =>
            jsNatToString_digit b d2 hb (h d2 (List.mem_cons_of_mem _ hd2)) hb16))]
        rfl
  have heta : String.join (l.map (fun d => jsNatToString b d))
      = ⟨(String.join (l.map (fun d => jsNatToString b d))).data⟩ := rfl
  rw [heta, hdata]

/-- `convertBase` on a string of valid digits yields the canonical
rendering of its value in the target base. -/
theorem convertBase_spec (s : String) (fB tB : Nat) (htB2 : 2 ≤ tB) (htB16 : tB ≤ 16)
    (h : ∀ c ∈ s.data, parseDigitChar c fB = some (digitVal c)) :
    convertBase s fB tB = some (baseRender tB (readLC fB s.data)) := by
  show (match parseToDigitsArray s fB with
    | none => none
    | some digits => some (String.join
        (((digits.foldl (convertBaseStep fB tB) ([], [1])).1.reverse.map
          (fun d => jsNatToString tB d)))) ) = _
  rw [parseToDigitsArray_spec s fB h]
  have h1 : (1 : Nat) = valB tB [1] := by show 1 = 1 + tB * 0; ring
  have hcanon1 : [1] = toLEDigits tB (valB tB [1]) := by
    rw [← h1, toLEDigits_eq tB 1 htB2, if_neg (by omega), Nat.mod_eq_of_lt (by omega),
      Nat.div_eq_of_lt (by omega), toLEDigits_zero]
  have hfold := convertFold_canon fB tB htB2 (s.data.reverse.map digitVal) [] [1] rfl hcanon1
  have hval : valB tB ([] : List Nat) + valB fB (s.data.reverse.map digitVal) * valB tB [1]
      = readLC fB s.data := by
    rw [valB_reverse_map_digitVal, ← h1]
    show 0 + readLC fB s.data * 1 = readLC fB s.data
    ring
  show some (String.join
      ((((s.data.reverse.map digitVal).foldl (convertBaseStep fB tB) ([], [1])).1.reverse).map
        (fun d => jsNatToString tB d))) = _
  rw [hfold, hval]
  rw [join_digit_strings tB htB2 htB16 _
    (fun d hd => toLEDigits_digits_lt tB htB2 _ d (List.mem_reverse.mp hd))]
  rfl

/-! ## `hexToDec` on the strings the generator builds -/

/-- The canonical rendering reads back to its value. -/
theorem baseRender_read (b v : Nat) (hb2 : 2 ≤ b) (hb16 : b ≤ 16) :
    readStrBase b (baseRender b v) = v := by
  show readLC b ((toLEDigits b v).reverse.map digitChar) = v
  rw [List.map_reverse]
  rw [readLC_map_digitChar_reverse b _
    (fun d hd => lt_of_lt_of_le (toLEDigits_digits_lt b hb2 v d hd) hb16)]
  exact valB_toLEDigits b hb2 v

/-- The rendering's length is the digit count. -/
theorem baseRender_length (b v : Nat) : (baseRender b v).length = (toLEDigits b v).length := by
  show ((toLEDigits b v).reverse.map digitChar).length = _
  rw [List.length_map, List.length_reverse]

/-- Decimal renderings consist of decimal digit characters. -/
theorem baseRender_all_dec (v : Nat) :
    ∀ c ∈ (baseRender 10 v).data, isDecChar c = true := by
  intro c hc
  rcases List.mem_map.mp (by simpa [baseRender] using hc) with ⟨d, hd, rfl⟩
  exact isDecChar_digitChar d (toLEDigits_digits_lt 10 (by omega) v d hd)

/-- Hexadecimal renderings consist of lowercase hex characters. -/
theorem baseRender_all_hex (v : Nat) :
    ∀ c ∈ (baseRender 16 v).data, isLowerHexChar c = true := by
  intro c hc
  rcases List.mem_map.mp (by simpa [baseRender] using hc) with ⟨d, hd, rfl⟩
  exact isLowerHexChar_digitChar d (toLEDigits_digits_lt 16 (by omega) v d hd)

/-- A lowercase hex character gives its numeric bounds. -/
theorem isLowerHexChar_bounds (c : Char) (h : isLowerHexChar c = true) :
    (48 ≤ c.toNat ∧ c.toNat ≤ 57) ∨ (97 ≤ c.toNat ∧ c.toNat ≤ 102) := by
  simp only [isLowerHexChar, isDecChar, Bool.or_eq_true, Bool.and_eq_true,
    decide_eq_true_eq] at h
  rcases h with ⟨h1, h2⟩ | ⟨h1, h2⟩
  · exact Or.inl ⟨h1, h2⟩
  · exact Or.inr ⟨h1, h2⟩

/-- Lowercasing leaves a lowercase hex character alone. -/
theorem jsCharToLower_hex (c : Char) (h : isLowerHexChar c = true) :
    jsCharToLower c = c := by
  have hb := isLowerHexChar_bounds c h
  show (if 'A' ≤ c ∧ c ≤ 'Z' then Char.ofNat (c.toNat + 32) else c) = c
  rw [if_neg]
  rintro ⟨a1, a2⟩
  have n1 : 65 ≤ c.toNat := a1
  have n2 : c.toNat ≤ 90 := a2
  omega

/-- Lowercasing leaves a lowercase hex string alone. -/
theorem jsToLower_hex (s : String) (h : ∀ c ∈ s.data, isLowerHexChar c = true) :
    jsToLower s = s := by
  show (⟨s.data.map jsCharToLower⟩ : String) = s
  have : s.data.map jsCharToLower = s.data.map id :=
    List.map_congr_left (fun c hc => jsCharToLower_hex c (h c hc))
  rw [this, List.map_id]

/-- A hex string never starts with the literal `0x`. -/
theorem strip0x_hex (s : String) (h : ∀ c ∈ s.data, isLowerHexChar c = true) :
    strip0x s = s := by
  show (if jsSubstring s 0 2 = "0x" then jsSubstring s 2 s.length else s) = s
  rw [if_neg]
  intro heq
  have hdata : (s.data.drop 0).take 2 = ['0', 'x'] := congrArg String.data heq
  rw [List.drop_zero] at hdata
  have hx : 'x' ∈ s.data.take 2 := by rw [hdata]; exact List.mem_cons_of_mem _ (List.mem_singleton.mpr rfl)
  have := h 'x' (List.take_subset 2 s.data hx)
  cases this

/-- A lowercase hex character parses in base 16 to its digit value. -/
theorem parseDigitChar_hex (c : Char) (h : isLowerHexChar c = true) :
    parseDigitChar c 16 = some (digitVal c) := by
  rcases isLowerHexChar_bounds c h with ⟨h1, h2⟩ | ⟨h1, h2⟩
  · have hc1 : '0' ≤ c := h1
    have hc2 : c ≤ '9' := h2
    show (match (if '0' ≤ c ∧ c ≤ '9' then some (c.toNat - 48)
        else if 'a' ≤ c ∧ c ≤ 'z' then some (c.toNat - 87)
        else if 'A' ≤ c ∧ c ≤ 'Z' then some (c.toNat - 55) else none) with
      | some n => if n < 16 then some n else none
      | none => none) = some (digitVal c)
    rw [if_pos ⟨hc1, hc2⟩]
    show (if c.toNat - 48 < 16 then some (c.toNat - 48) else none) = some (digitVal c)
    rw [if_pos (by omega)]
    show _ = some (if c.toNat ≥ 97 then c.toNat - 87 else c.toNat - 48)
    rw [if_neg (by omega)]
  · have hna : ¬ ('0' ≤ c ∧ c ≤ '9') := by
      rintro ⟨_, a2⟩
      have : c.toNat ≤ 57 := a2
      omega
    have hya : 'a' ≤ c ∧ c ≤ 'z' := ⟨show 97 ≤ c.toNat from h1, show c.toNat ≤ 122 by omega⟩
    show (match (if '0' ≤ c ∧ c ≤ '9' then some (c.toNat - 48)
        else if 'a' ≤ c ∧ c ≤ 'z' then some (c.toNat - 87)
        else if 'A' ≤ c ∧ c ≤ 'Z' then some (c.toNat - 55) else none) with
      | some n => if n < 16 then some n else none
      | none => none) = some (digitVal c)
    rw [if_neg hna, if_pos hya]
    show (if c.toNat - 87 < 16 then some (c.toNat - 87) else none) = some (digitVal c)
    rw [if_pos (by omega)]
    show _ = some (if c.toNat ≥ 97 then c.toNat - 87 else c.toNat - 48)
    rw [if_pos (by omega)]

/-- `hexToDec` on a lowercase hex string: the canonical decimal
rendering of its value. -/
theorem hexToDec_spec (s : String) (h : ∀ c ∈ s.data, isLowerHexChar c = true) :
    hexToDec s = some (baseRender 10 (readLC 16 s.data)) := by
  show convertBase (jsToLower (strip0x s)) 16 10 = _
  rw [strip0x_hex s h, jsToLower_hex s h]
  exact convertBase_spec s 16 10 (by omega) (by omega)
    (fun c hc => parseDigitChar_hex c (h c hc))

/-! ## The nibble loop -/

/-- Binary digit characters are exactly `0` and `1`. -/
theorem isBinChar_iff (c : Char) : isBinChar c = true ↔ (c = '0' ∨ c = '1') := by
  simp [isBinChar]

/-- `parseInt` keeps the whole chunk when it is all binary. -/
theorem takeWhile_bin (l : List Char) (h : ∀ c ∈ l, isBinChar c = true) :
    l.takeWhile (fun c => decide (c = '0' ∨ c = '1')) = l := by
  induction l with
  | nil => rfl
  | cons c cs ih =>
      have hc : decide (c = '0' ∨ c = '1') = true :=
        decide_eq_true ((isBinChar_iff c).mp (h c (List.mem_cons_self _ _)))
      rw [List.takeWhile_cons, hc, if_pos rfl,
        ih (fun x hx => h x (List.mem_cons_of_mem _ hx))]

/-- On binary characters the inline accumulator agrees with `digitVal`. -/
theorem foldl_bin_digitVal (l : List Char) (h : ∀ c ∈ l, isBinChar c = true) (a : Nat) :
    l.foldl (fun acc c => acc * 2 + (c.toNat - 48)) a =
      l.foldl (fun acc c => acc * 2 + digitVal c) a := by
  induction l generalizing a with
  | nil => rfl
  | cons c cs ih =>
      have hdv : digitVal c = c.toNat - 48 := by
        rcases (isBinChar_iff c).mp (h c (List.mem_cons_self _ _)) with rfl | rfl <;> decide
      show cs.foldl _ (a * 2 + (c.toNat - 48)) = cs.foldl _ (a * 2 + digitVal c)
      rw [hdv]
      exact ih (fun x hx => h x (List.mem_cons_of_mem _ hx)) _

/-- `parseInt(chunk, 2)` on an all-binary non-empty chunk reads its value. -/
theorem parseIntBin_spec (l : List Char) (h : ∀ c ∈ l, isBinChar c = true) (hne : l ≠ []) :
    parseIntBin l = some (readLC 2 l) := by
  show (if (l.takeWhile (fun c => decide (c = '0' ∨ c = '1'))).isEmpty then none
      else some ((l.takeWhile (fun c => decide (c = '0' ∨ c = '1'))).foldl
        (fun acc c => acc * 2 + (c.toNat - 48)) 0)) = some (readLC 2 l)
  rw [takeWhile_bin l h]
  have hemp : l.isEmpty = false := by
    cases l with
    | nil => exact absurd rfl hne
    | cons _ _ => rfl
  rw [hemp]
  show some (l.foldl (fun acc c => acc * 2 + (c.toNat - 48)) 0) = _
  rw [foldl_bin_digitVal l h 0]
  rfl

/-- Binary characters have digit values below 2. -/
theorem readLC_bin_lt (l : List Char) (h : ∀ c ∈ l, isBinChar c = true) :
    readLC 2 l < 2 ^ l.length :=
  readLC_lt 2 l (by omega) (fun c hc => by
    rcases (isBinChar_iff c).mp (h c hc) with rfl | rfl <;> decide)

/-- One nibble hex-encodes to the single digit character of its value. -/
theorem chunkHex_spec (l : List Char) (h : ∀ c ∈ l, isBinChar c = true) (hne : l ≠ [])
    (hlen : l.length ≤ 4) :
    chunkHex l = ⟨[digitChar (readLC 2 l)]⟩ := by
  have h2 : (2:Nat) ^ l.length ≤ 2 ^ 4 := Nat.pow_le_pow_right (by omega) hlen
  have hv : readLC 2 l < 16 :=
    lt_of_lt_of_le (readLC_bin_lt l h) (le_trans h2 (by norm_num))
  show (match parseIntBin l with | some v => jsNatToString 16 v | none => "NaN") = _
  rw [parseIntBin_spec l h hne]
  exact jsNatToString_digit 16 _ (by omega) hv (by omega)

/-- The fuel of the nibble loop is irrelevant once it covers the input. -/
theorem nibbleHexAux_congr : ∀ n : Nat, ∀ l : List Char, l.length = n →
    ∀ f1 f2, n ≤ f1 → n ≤ f2 → nibbleHexAux f1 l = nibbleHexAux f2 l := by
  intro n
  induction n using Nat.strong_induction_on with
  | _ n ih =>
    intro l hl f1 f2 h1 h2
    by_cases hn : n = 0
    · subst hn
      have hle : l = [] := List.eq_nil_of_length_eq_zero hl
      subst hle
      cases f1 <;> cases f2 <;> rfl
    · obtain ⟨g1, rfl⟩ : ∃ g1, f1 = g1 + 1 := ⟨f1 - 1, by omega⟩
      obtain ⟨g2, rfl⟩ : ∃ g2, f2 = g2 + 1 := ⟨f2 - 1, by omega⟩
      have hcond : ¬ (l.length = 0) := by rw [hl]; exact hn
      show (if l.length = 0 then "" else
          nibbleHexAux g1 (l.take (l.length - 4)) ++ chunkHex (l.drop (l.length - 4))) =
        (if l.length = 0 then "" else
          nibbleHexAux g2 (l.take (l.length - 4)) ++ chunkHex (l.drop (l.length - 4)))
      rw [if_neg hcond, if_neg hcond]
      have htl : (l.take (l.length - 4)).length = l.length - 4 := by
        rw [List.length_take]; omega
      rw [ih (n - 4) (by omega) (l.take (l.length - 4)) (by rw [htl, hl]) g1 g2
        (by omega) (by omega)]

/-- The characteristic equation of the nibble loop: peel the last four
characters. -/
theorem nibbleHex_step (l : List Char) (hne : l.length ≠ 0) :
    nibbleHex l = nibbleHex (l.take (l.length - 4)) ++ chunkHex (l.drop (l.length - 4)) := by
  have htl : (l.take (l.length - 4)).length = l.length - 4 := by
    rw [List.length_take]; omega
  have h1 : nibbleHex l = nibbleHexAux ((l.length - 1) + 1) l :=
    congrArg (fun f => nibbleHexAux f l) (by omega)
  rw [h1]
  show (if l.length = 0 then "" else
      nibbleHexAux (l.length - 1) (l.take (l.length - 4)) ++ chunkHex (l.drop (l.length - 4))) = _
  rw [if_neg hne]
  show _ = nibbleHexAux (l.take (l.length - 4)).length (l.take (l.length - 4)) ++ _
  rw [nibbleHexAux_congr ((l.take (l.length - 4)).length) _ rfl (l.length - 1) _
    (by rw [htl]; omega) (le_refl _)]

/-- The nibble loop on an all-binary string: every output character is a
lowercase hex digit and the output reads back in base 16 to the input's
base-2 value. -/
theorem nibbleHex_spec : ∀ n : Nat, ∀ l : List Char, l.length = n →
    (∀ c ∈ l, isBinChar c = true) →
    (∀ c ∈ (nibbleHex l).data, isLowerHexChar c = true) ∧
      readLC 16 (nibbleHex l).data = readLC 2 l := by
  intro n
  induction n using Nat.strong_induction_on with
  | _ n ih =>
    intro l hl hbin
    by_cases hn : n = 0
    · subst hn
      have hle : l = [] := List.eq_nil_of_length_eq_zero hl
      subst hle
      constructor
      · intro c hc
        rw [show (nibbleHex ([] : List Char)).data = [] from rfl] at hc
        exact absurd hc (List.not_mem_nil c)
      · rfl
    · have hne : l.length ≠ 0 := by omega
      have hld_len : (l.drop (l.length - 4)).length = l.length - (l.length - 4) :=
        List.length_drop _ _
      have hlt_len : (l.take (l.length - 4)).length = l.length - 4 := by
        rw [List.length_take]; omega
      have hbin_t : ∀ c ∈ l.take (l.length - 4), isBinChar c = true :=
        fun c hc => hbin c (List.take_subset _ _ hc)
      have hbin_d : ∀ c ∈ l.drop (l.length - 4), isBinChar c = true :=
        fun c hc => hbin c (List.drop_subset _ _ hc)
      have hld_ne : l.drop (l.length - 4) ≠ [] := by
        intro hemp
        rw [hemp] at hld_len
        simp at hld_len
        omega
      have hv : readLC 2 (l.drop (l.length - 4)) < 16 := by
        have hp : (2:Nat) ^ (l.drop (l.length - 4)).length ≤ 2 ^ 4 :=
          Nat.pow_le_pow_right (by omega) (by omega)
        exact lt_of_lt_of_le (readLC_bin_lt _ hbin_d) (le_trans hp (by norm_num))
      have hchunk : chunkHex (l.drop (l.length - 4))
          = ⟨[digitChar (readLC 2 (l.drop (l.length - 4)))]⟩ :=
        chunkHex_spec _ hbin_d hld_ne (by omega)
      obtain ⟨ihhex, ihval⟩ := ih (n - 4) (by omega) (l.take (l.length - 4))
        (by rw [hlt_len, hl]) hbin_t
      rw [nibbleHex_step l hne, hchunk, String.data_append]
      have hmk : (String.mk [digitChar (readLC 2 (l.drop (l.length - 4)))]).data
          = [digitChar (readLC 2 (l.drop (l.length - 4)))] := rfl
      rw [hmk]
      constructor
      · intro c hc
        rcases List.mem_append.mp hc with h1 | h1
        · exact ihhex c h1
        · rcases List.mem_singleton.mp h1 with rfl
          exact isLowerHexChar_digitChar _ hv
      · rw [readLC_append, ihval]
        have hone : readLC 16 [digitChar (readLC 2 (l.drop (l.length - 4)))]
            = readLC 2 (l.drop (l.length - 4)) := by
          rw [readLC_cons]
          show digitVal (digitChar _) * 16 ^ 0 + readLC 16 [] = _
          rw [digitVal_digitChar _ hv]
          simp [readLC]
        rw [hone]
        conv_rhs => rw [← List.take_append_drop (l.length - 4) l]
        rw [readLC_append]
        by_cases h4 : 4 ≤ l.length
        · have hd4 : (l.drop (l.length - 4)).length = 4 := by omega
          rw [hd4]
          norm_num
        · have hlt0 : l.take (l.length - 4) = [] := by
            rw [show l.length - 4 = 0 from by omega]
            exact List.take_zero l
          rw [hlt0]
          simp [readLC]

/-! ## The composed bit string and `generate()` -/

/-- `n.toString(b)` reads back to `n`. -/
theorem jsNatToString_read (b n : Nat) (hb2 : 2 ≤ b) (hb16 : b ≤ 16) :
    readLC b (jsNatToString b n).data = n := by
  show readLC b ((if n = 0 then "0" else
    (⟨(toLEDigits b n).reverse.map digitChar⟩ : String)) : String).data = n
  by_cases h0 : n = 0
  · subst h0
    rw [if_pos rfl]
    show readLC b ['0'] = 0
    rw [readLC_cons]
    have hz : digitVal '0' = 0 := by decide
    rw [hz]
    simp [readLC]
  · rw [if_neg h0]
    exact baseRender_read b n hb2 hb16

/-- `n.toString(2)` is a binary string. -/
theorem jsNatToString_bin_chars (n : Nat) :
    ∀ c ∈ (jsNatToString 2 n).data, isBinChar c = true := by
  intro c hc
  by_cases h0 : n = 0
  · subst h0
    have h1 : c ∈ ['0'] := by simpa [jsNatToString] using hc
    rcases List.mem_singleton.mp h1 with rfl
    decide
  · rcases List.mem_map.mp (by simpa [jsNatToString, h0] using hc) with ⟨d, hd, rfl⟩
    have hd2 : d < 2 := toLEDigits_digits_lt 2 (le_refl 2) n d hd
    interval_cases d <;> decide

/-- `n.toString(b)` has at most `k` digits when `n < b ^ k`. -/
theorem jsNatToString_length_le (b n k : Nat) (hb : 2 ≤ b) (hk : 1 ≤ k) (h : n < b ^ k) :
    (jsNatToString b n).length ≤ k := by
  show ((if n = 0 then "0" else
    (⟨(toLEDigits b n).reverse.map digitChar⟩ : String)) : String).length ≤ k
  by_cases h0 : n = 0
  · subst h0
    rw [if_pos rfl]
    exact hk
  · rw [if_neg h0]
    show ((toLEDigits b n).reverse.map digitChar).length ≤ k
    rw [List.length_map, List.length_reverse]
    exact toLEDigits_length_le b hb k n h

/-- Zero-padding keeps characters binary. -/
theorem jsPadStart_bin_chars (s : String) (n : Nat)
    (h : ∀ c ∈ s.data, isBinChar c = true) :
    ∀ c ∈ (jsPadStart s n '0').data, isBinChar c = true := by
  intro c hc
  unfold jsPadStart at hc
  by_cases hle : n ≤ s.length
  · rw [if_pos hle] at hc
    exact h c hc
  · rw [if_neg hle] at hc
    have h2 : c ∈ List.replicate (n - s.length) '0' ++ s.data := hc
    rcases List.mem_append.mp h2 with h1 | h1
    · rw [List.eq_of_mem_replicate h1]
      decide
    · exact h c h1

/-- Zero-padding does not change the reading. -/
theorem jsPadStart_read (b : Nat) (s : String) (n : Nat) :
    readLC b (jsPadStart s n '0').data = readLC b s.data := by
  unfold jsPadStart
  by_cases hle : n ≤ s.length
  · rw [if_pos hle]
  · rw [if_neg hle]
    exact readLC_replicate_zero b _ s.data

/-- The length of a padded string. -/
theorem jsPadStart_length (s : String) (n : Nat) (c : Char) :
    (jsPadStart s n c).length = max n s.length := by
  unfold jsPadStart
  have hsl : s.length = s.data.length := rfl
  by_cases hle : n ≤ s.length
  · rw [if_pos hle]
    omega
  · rw [if_neg hle]
    show (List.replicate (n - s.length) c ++ s.data).length = max n s.length
    rw [List.length_append, List.length_replicate]
    omega

/-- Every character of the composed bit string is binary. -/
theorem genBid_bin_chars (instStr : String) (rnd offset : Nat) (st2 : SnowState)
    (hinst : ∀ c ∈ instStr.data, isBinChar c = true) :
    ∀ c ∈ (genBid instStr rnd offset st2).data, isBinChar c = true := by
  intro c hc
  simp only [genBid, String.data_append, List.mem_append] at hc
  rcases hc with ((h1 | h1) | h1) | h1
  · exact jsNatToString_bin_chars _ c h1
  · exact hinst c h1
  · exact jsPadStart_bin_chars _ _ (fun x hx => jsNatToString_bin_chars _ x hx) c h1
  · exact jsPadStart_bin_chars _ _ (fun x hx => jsNatToString_bin_chars _ x hx) c h1

/-- The composed bit string reads in base 2 to the generator's value. -/
theorem genBid_read (instStr : String) (rnd offset : Nat) (st2 : SnowState)
    (hlen : instStr.length = 10) (hseq : st2.seq ≤ 4095) (hrnd : rnd ≤ 1023) :
    readLC 2 (genBid instStr rnd offset st2).data
      = genValue (readLC 2 instStr.data) rnd offset st2 := by
  have hSlen : (jsPadStart (jsNatToString 2 st2.seq) 12 '0').length = 12 := by
    rw [jsPadStart_length]
    have h1 := jsNatToString_length_le 2 st2.seq 12 (by omega) (by omega)
      (lt_of_le_of_lt hseq (by norm_num))
    omega
  have hRlen : (jsPadStart (jsNatToString 2 rnd) 10 '0').length = 10 := by
    rw [jsPadStart_length]
    have h1 := jsNatToString_length_le 2 rnd 10 (by omega) (by omega)
      (lt_of_le_of_lt hrnd (by norm_num))
    omega
  have hId : instStr.data.length = 10 := hlen
  have hSd : (jsPadStart (jsNatToString 2 st2.seq) 12 '0').data.length = 12 := hSlen
  have hRd : (jsPadStart (jsNatToString 2 rnd) 10 '0').data.length = 10 := hRlen
  simp only [genBid, String.data_append]
  rw [readLC_append, readLC_append, readLC_append]
  rw [hId, hSd, hRd]
  rw [jsNatToString_read 2 (st2.lastTime - offset) (by omega) (by omega)]
  rw [jsPadStart_read, jsPadStart_read]
  rw [jsNatToString_read 2 st2.seq (by omega) (by omega),
    jsNatToString_read 2 rnd (by omega) (by omega)]
  unfold genValue
  ring

/-- The stepped state's sequence counter never exceeds 4095. -/
theorem genStepState_seq_le (st : SnowState) (time : Nat) :
    (genStepState st time).seq ≤ 4095 := by
  unfold genStepState
  by_cases h1 : st.lastTime = time
  · rw [if_pos h1]
    by_cases h2 : st.seq + 1 > 4095
    · rw [if_pos h2]
      show (0:Nat) ≤ 4095
      omega
    · rw [if_neg h2]
      show st.seq + 1 ≤ 4095
      omega
  · rw [if_neg h1]
    show (0:Nat) ≤ 4095
    omega

/-- `generate()` in closed form: the canonical decimal rendering of the
generator value, padded to 23 digits and truncated to the first 23. -/
theorem generate_spec (instStr : String) (rnd offset : Nat) (st : SnowState) (time : Nat)
    (hbin : ∀ c ∈ instStr.data, isBinChar c = true)
    (hlen : instStr.length = 10)
    (hrnd : rnd ≤ 1023) :
    generate instStr rnd offset st time
      = (genStepState st time,
         some (jsSubstring (jsPadStart (baseRender 10
           (genValue (readLC 2 instStr.data) rnd offset (genStepState st time))) 23 '0') 0 23)) := by
  have hbidbin := genBid_bin_chars instStr rnd offset (genStepState st time) hbin
  obtain ⟨hhex, hval⟩ := nibbleHex_spec
    (genBid instStr rnd offset (genStepState st time)).data.length
    (genBid instStr rnd offset (genStepState st time)).data rfl hbidbin
  simp only [generate]
  rw [hexToDec_spec _ hhex, hval,
    genBid_read instStr rnd offset _ hlen (genStepState_seq_le st time) hrnd]
  rfl

/-! ## Decimal ID strings and their ordering -/

/-- Characters are equal when their code points are. -/
theorem char_eq_of_toNat_eq (a b : Char) (h : a.toNat = b.toNat) : a = b :=
  Char.eq_of_val_eq (UInt32.ext h)

/-- Zero-padding keeps characters decimal. -/
theorem jsPadStart_dec_chars (s : String) (n : Nat)
    (h : ∀ c ∈ s.data, isDecChar c = true) :
    ∀ c ∈ (jsPadStart s n '0').data, isDecChar c = true := by
  intro c hc
  unfold jsPadStart at hc
  by_cases hle : n ≤ s.length
  · rw [if_pos hle] at hc
    exact h c hc
  · rw [if_neg hle] at hc
    have h2 : c ∈ List.replicate (n - s.length) '0' ++ s.data := hc
    rcases List.mem_append.mp h2 with h1 | h1
    · rw [List.eq_of_mem_replicate h1]
      decide
    · exact h c h1

/-- A decimal character's code point bounds and digit value. -/
theorem isDecChar_toNat (c : Char) (h : isDecChar c = true) :
    48 ≤ c.toNat ∧ c.toNat ≤ 57 ∧ digitVal c = c.toNat - 48 := by
  simp only [isDecChar, Bool.and_eq_true, decide_eq_true_eq] at h
  obtain ⟨h1, h2⟩ := h
  have n1 : 48 ≤ c.toNat := h1
  have n2 : c.toNat ≤ 57 := h2
  refine ⟨n1, n2, ?_⟩
  unfold digitVal
  rw [if_neg (by omega)]

/-- Fixed-width decimal strings compare lexicographically as numbers. -/
theorem lex_of_readLC_lt : ∀ l1 l2 : List Char, l1.length = l2.length →
    (∀ c ∈ l1, isDecChar c = true) → (∀ c ∈ l2, isDecChar c = true) →
    readLC 10 l1 < readLC 10 l2 → List.Lex (· < ·) l1 l2 := by
  intro l1
  induction l1 with
  | nil =>
      intro l2 hlen _ _ hv
      have h2 : l2 = [] := List.length_eq_zero.mp hlen.symm
      subst h2
      exact absurd hv (by simp [readLC])
  | cons a t1 ih =>
      intro l2 hlen hd1 hd2 hv
      cases l2 with
      | nil => exact absurd hlen (by simp)
      | cons b t2 =>
          have hlen' : t1.length = t2.length := by simpa using hlen
          obtain ⟨ha1, ha2, ha3⟩ := isDecChar_toNat a (hd1 a (List.mem_cons_self _ _))
          obtain ⟨hb1, hb2, hb3⟩ := isDecChar_toNat b (hd2 b (List.mem_cons_self _ _))
          have hr1 : readLC 10 t1 < 10 ^ t1.length :=
            readLC_lt 10 t1 (by omega) (fun c hc => by
              obtain ⟨u1, u2, u3⟩ := isDecChar_toNat c (hd1 c (List.mem_cons_of_mem _ hc))
              omega)
          have hr2 : readLC 10 t2 < 10 ^ t2.length :=
            readLC_lt 10 t2 (by omega) (fun c hc => by
              obtain ⟨u1, u2, u3⟩ := isDecChar_toNat c (hd2 c (List.mem_cons_of_mem _ hc))
              omega)
          rw [readLC_cons, readLC_cons, hlen'] at hv
          by_cases heq : a = b
          · subst heq
            apply List.Lex.cons
            apply ih t2 hlen' (fun c hc => hd1 c (List.mem_cons_of_mem _ hc))
              (fun c hc => hd2 c (List.mem_cons_of_mem _ hc))
            omega
          · have hne : a.toNat ≠ b.toNat := fun hEq => heq (char_eq_of_toNat_eq a b hEq)
            have hab : digitVal a < digitVal b := by
              by_contra hge
              push_neg at hge
              have hexp : (digitVal b + 1) * 10 ^ t2.length
                  = digitVal b * 10 ^ t2.length + 10 ^ t2.length := by ring
              have hstep : (digitVal b + 1) * 10 ^ t2.length
                  ≤ digitVal a * 10 ^ t2.length :=
                Nat.mul_le_mul_right _ (by omega)
              omega
            have htoNat : a.toNat < b.toNat := by omega
            exact List.Lex.rel htoNat

/-- The ID ordering from numeric ordering of equal-width decimal strings. -/
theorem idLt_of_reads (sa sb : String) (hla : sa.length = 23) (hlb : sb.length = 23)
    (hda : ∀ c ∈ sa.data, isDecChar c = true) (hdb : ∀ c ∈ sb.data, isDecChar c = true)
    (h : readStrBase 10 sa < readStrBase 10 sb) : idLt (some sa) (some sb) := by
  refine ⟨sa, sb, rfl, rfl, h, ?_⟩
  have h1 : sa.data.length = 23 := hla
  have h2 : sb.data.length = 23 := hlb
  exact lex_of_readLC_lt sa.data sb.data (by omega) hda hdb h

/-- For values below `10^23` the emitted ID is the zero-padded canonical
decimal: 23 decimal digit characters reading back to the value. -/
theorem idString_of_lt (v : Nat) (hv : v < 10 ^ 23) :
    jsSubstring (jsPadStart (baseRender 10 v) 23 '0') 0 23
        = jsPadStart (baseRender 10 v) 23 '0' ∧
      (jsPadStart (baseRender 10 v) 23 '0').length = 23 ∧
      readStrBase 10 (jsPadStart (baseRender 10 v) 23 '0') = v ∧
      ∀ c ∈ (jsPadStart (baseRender 10 v) 23 '0').data, isDecChar c = true := by
  have hbl : (baseRender 10 v).length ≤ 23 := by
    rw [baseRender_length]
    exact toLEDigits_length_le 10 (by omega) 23 v hv
  have hlen : (jsPadStart (baseRender 10 v) 23 '0').length = 23 := by
    rw [jsPadStart_length]
    omega
  have hdlen : (jsPadStart (baseRender 10 v) 23 '0').data.length = 23 := hlen
  refine ⟨?_, hlen, ?_, ?_⟩
  · show (⟨(jsPadStart (baseRender 10 v) 23 '0').data.take 23⟩ : String)
        = jsPadStart (baseRender 10 v) 23 '0'
    rw [List.take_of_length_le (by omega)]
  · show readLC 10 (jsPadStart (baseRender 10 v) 23 '0').data = v
    rw [jsPadStart_read]
    exact baseRender_read 10 v (by omega) (by omega)
  · exact jsPadStart_dec_chars _ _ (baseRender_all_dec v)

/-- One generator step strictly increases the composed value when the
clock does not go backwards and the sequence has same-tick headroom. -/
theorem genStep_value_lt (I rnd offset : Nat) (st : SnowState) (t : Nat)
    (hlt : st.lastTime ≤ t) (hoff : offset ≤ st.lastTime)
    (hseq : st.seq ≤ 4095)
    (hbudget : st.lastTime = t → st.seq ≤ 4094) :
    genValue I rnd offset st < genValue I rnd offset (genStepState st t) := by
  have e32 : (2:Nat) ^ 32 = 4294967296 := by norm_num
  have e22 : (2:Nat) ^ 22 = 4194304 := by norm_num
  have e10 : (2:Nat) ^ 10 = 1024 := by norm_num
  unfold genValue genStepState
  by_cases h1 : st.lastTime = t
  · rw [if_pos h1, if_neg (by have := hbudget h1; omega)]
    dsimp only
    rw [← h1, e32, e22, e10]
    omega
  · rw [if_neg h1]
    dsimp only
    rw [e32, e22, e10]
    have hlt2 : st.lastTime < t := lt_of_le_of_ne hlt h1
    omega

/-- The composed value stays below `10^23` while the elapsed time stays
within 23283064365384 ms. -/
theorem genValue_lt_pow23 (I rnd offset : Nat) (st2 : SnowState)
    (hI : I ≤ 1023) (hrnd : rnd ≤ 1023) (hseq : st2.seq ≤ 4095)
    (hlast : st2.lastTime ≤ offset + 23283064365384) :
    genValue I rnd offset st2 < 10 ^ 23 := by
  have e32 : (2:Nat) ^ 32 = 4294967296 := by norm_num
  have e22 : (2:Nat) ^ 22 = 4194304 := by norm_num
  have e10 : (2:Nat) ^ 10 = 1024 := by norm_num
  have e23 : (10:Nat) ^ 23 = 100000000000000000000000 := by norm_num
  unfold genValue
  rw [e32, e22, e10, e23]
  have h1 : st2.lastTime - offset ≤ 23283064365384 := by omega
  have h2 : (st2.lastTime - offset) * 4294967296 ≤ 23283064365384 * 4294967296 :=
    Nat.mul_le_mul_right _ h1
  omega

/-! ## The constructor's fingerprint -/

/-- A constructed fingerprint decomposes through `hexToDec` and
`parseInt`: it is the 10-character binary rendering of
`(n % 24) + 1000`, which it reads back to. -/
theorem instanceNumberStr_props (instanceId instStr : String)
    (h : instanceNumberStr instanceId = some instStr) :
    instStr.length = 10 ∧ (∀ c ∈ instStr.data, isBinChar c = true) ∧
    ∃ dec n, hexToDec (instanceIdPadded instanceId) = some dec ∧
      jsParseIntDec dec = some n ∧
      instStr = jsPadStart (jsNatToString 2 ((n % 24) + 1000)) 5 '0' ∧
      readLC 2 instStr.data = (n % 24) + 1000 := by
  unfold instanceNumberStr at h
  cases hhd : hexToDec (instanceIdPadded instanceId) with
  | none => rw [hhd] at h; cases h
  | some dec =>
      rw [hhd] at h
      have h' : (match jsParseIntDec dec with
          | none => none
          | some n => some (jsPadStart (jsNatToString 2 ((n % 24) + 1000)) 5 '0'))
            = some instStr := h
      cases hpd : jsParseIntDec dec with
      | none => rw [hpd] at h'; cases h'
      | some n =>
          rw [hpd] at h'
          injection h' with h2
          subst h2
          have h512 : (2:Nat) ^ 9 = 512 := by norm_num
          have h1024 : (2:Nat) ^ 10 = 1024 := by norm_num
          have h24 : n % 24 < 24 := Nat.mod_lt _ (by omega)
          have hm1 : 2 ^ 9 ≤ (n % 24) + 1000 := by omega
          have hm2 : (n % 24) + 1000 < 2 ^ 10 := by omega
          have hlge : 10 ≤ (toLEDigits 2 ((n % 24) + 1000)).length := by
            have hg := toLEDigits_length_ge 2 (by omega) 9 _ hm1
            omega
          have hlle : (toLEDigits 2 ((n % 24) + 1000)).length ≤ 10 :=
            toLEDigits_length_le 2 (by omega) 10 _ hm2
          have hjs : (jsNatToString 2 ((n % 24) + 1000)).length = 10 := by
            show ((if (n % 24) + 1000 = 0 then "0" else
              (⟨(toLEDigits 2 ((n % 24) + 1000)).reverse.map digitChar⟩ : String)) :
                String).length = 10
            rw [if_neg (by omega)]
            show ((toLEDigits 2 ((n % 24) + 1000)).reverse.map digitChar).length = 10
            rw [List.length_map, List.length_reverse]
            omega
          refine ⟨?_, ?_, dec, n, rfl, hpd, rfl, ?_⟩
          · rw [jsPadStart_length, hjs]
            omega
          · exact jsPadStart_bin_chars _ _ (fun x hx => jsNatToString_bin_chars _ x hx)
          · rw [jsPadStart_read, jsNatToString_read 2 _ (by omega) (by omega)]

/-- The fingerprint of the all-but-last-zero instance identifier. -/
theorem instanceNumberStr_one :
    instanceNumberStr "00000000000000000000000000000001" = some "1111101001" := by
  decide

/-- JS `parseInt` rounds to float64: at 2^53 + 1 the parsed value drops
to 2^53, so the fingerprint of the identifier `20000000000001` (hex for
2^53 + 1) is built from 1008, where exact arbitrary-precision arithmetic
would give 1009. -/
theorem jsParseIntDec_rounds :
    jsParseIntDec "9007199254740993" = some 9007199254740992 ∧
    instanceNumberStr "20000000000001" = some "1111110000" ∧
    (9007199254740993 % 24) + 1000 = 1009 ∧
    (9007199254740992 % 24) + 1000 = 1008 :=
  ⟨by decide, by decide, by decide, by decide⟩

/-! ## The generator run -/

/-- Without same-tick overflow pressure, one step moves the clock to the
tick and bumps or resets the sequence. -/
theorem genStepState_eq (st : SnowState) (t : Nat)
    (hno : st.lastTime = t → st.seq ≤ 4094) :
    genStepState st t = ⟨t, if st.lastTime = t then st.seq + 1 else 0⟩ := by
  unfold genStepState
  by_cases h1 : st.lastTime = t
  · rw [if_pos h1, if_neg (by have := hno h1; omega), if_pos h1]
  · rw [if_neg h1, if_neg h1]

/-- Consecutive `generate()` IDs strictly increase: under a sorted clock
(never behind the state), a per-tick call budget of 4096 and elapsed time
within 23283064365384 ms, each ID is below the next both numerically and
lexicographically. -/
theorem genRun_chain (instStr : String) (rnd offset : Nat)
    (hbin : ∀ c ∈ instStr.data, isBinChar c = true)
    (hlen : instStr.length = 10) (hrnd : rnd ≤ 1023)
    (hIv : readLC 2 instStr.data ≤ 1023) :
    ∀ times : List Nat, ∀ st : SnowState,
    times.Pairwise (· ≤ ·) →
    (∀ t ∈ times, st.lastTime ≤ t ∧ offset ≤ t ∧ t ≤ offset + 23283064365384) →
    st.seq ≤ 4095 →
    (∀ t ∈ times, times.count t + (if st.lastTime = t then st.seq + 1 else 0) ≤ 4096) →
    (genRun instStr rnd offset st times).Chain' idLt := by
  intro times
  induction times with
  | nil =>
      intro st _ _ _ _
      exact List.chain'_nil
  | cons t rest ih =>
      intro st hsort htimes hseq hbudget
      obtain ⟨hst_le, hoff_t, hbound_t⟩ := htimes t (List.mem_cons_self _ _)
      have hcount_t := hbudget t (List.mem_cons_self _ _)
      rw [List.count_cons_self] at hcount_t
      have hnobump : st.lastTime = t → st.seq ≤ 4094 := by
        intro he
        rw [if_pos he] at hcount_t
        omega
      have hst2 : genStepState st t = ⟨t, if st.lastTime = t then st.seq + 1 else 0⟩ :=
        genStepState_eq st t hnobump
      have hseq2 : (genStepState st t).seq ≤ 4095 := genStepState_seq_le st t
      have hrest_pair := List.pairwise_cons.mp hsort
      have hsort' : rest.Pairwise (· ≤ ·) := hrest_pair.2
      have hhead_le : ∀ x ∈ rest, t ≤ x := hrest_pair.1
      have htimes' : ∀ x ∈ rest, (genStepState st t).lastTime ≤ x ∧ offset ≤ x ∧
          x ≤ offset + 23283064365384 := by
        intro x hx
        obtain ⟨_, hx2, hx3⟩ := htimes x (List.mem_cons_of_mem _ hx)
        refine ⟨?_, hx2, hx3⟩
        rw [hst2]
        exact hhead_le x hx
      have hbudget' : ∀ x ∈ rest, rest.count x +
          (if (genStepState st t).lastTime = x then (genStepState st t).seq + 1 else 0)
            ≤ 4096 := by
        intro x hx
        have hbx := hbudget x (List.mem_cons_of_mem _ hx)
        rw [List.count_cons] at hbx
        simp only [beq_iff_eq] at hbx
        rw [hst2]
        show rest.count x +
            (if t = x then (if st.lastTime = t then st.seq + 1 else 0) + 1 else 0) ≤ 4096
        by_cases hxt : t = x
        · subst hxt
          rw [if_pos rfl] at hbx
          rw [if_pos rfl]
          omega
        · rw [if_neg hxt]
          rw [if_neg hxt] at hbx
          omega
      have hchain2 := ih (genStepState st t) hsort' htimes' hseq2 hbudget'
      show List.Chain' idLt ((generate instStr rnd offset st t).2 ::
        genRun instStr rnd offset (generate instStr rnd offset st t).1 rest)
      rw [generate_spec instStr rnd offset st t hbin hlen hrnd]
      dsimp only
      apply List.chain'_cons'.mpr
      refine ⟨?_, hchain2⟩
      intro b hb
      cases rest with
      | nil => simp [genRun] at hb
      | cons t2 rest2 =>
          have hb2 : b = (generate instStr rnd offset (genStepState st t) t2).2 := by
            simp only [genRun, List.head?_cons, Option.mem_def, Option.some.injEq] at hb
            exact hb.symm
          subst hb2
          rw [generate_spec instStr rnd offset (genStepState st t) t2 hbin hlen hrnd]
          dsimp only
          have hinv2 := htimes' t2 (List.mem_cons_self _ _)
          have hb2' := hbudget' t2 (List.mem_cons_self _ _)
          rw [List.count_cons_self] at hb2'
          have hnobump2 : (genStepState st t).lastTime = t2 →
              (genStepState st t).seq ≤ 4094 := by
            intro he
            rw [if_pos he] at hb2'
            omega
          have hoff2 : offset ≤ (genStepState st t).lastTime := by
            rw [hst2]
            exact hoff_t
          have hvlt : genValue (readLC 2 instStr.data) rnd offset (genStepState st t)
              < genValue (readLC 2 instStr.data) rnd offset
                  (genStepState (genStepState st t) t2) :=
            genStep_value_lt _ rnd offset _ t2 hinv2.1 hoff2 hseq2 hnobump2
          have hlast1 : (genStepState st t).lastTime ≤ offset + 23283064365384 := by
            rw [hst2]
            exact hbound_t
          have hlast2 : (genStepState (genStepState st t) t2).lastTime
              ≤ offset + 23283064365384 := by
            have hst3 : genStepState (genStepState st t) t2
                = ⟨t2, if (genStepState st t).lastTime = t2
                    then (genStepState st t).seq + 1 else 0⟩ :=
              genStepState_eq _ t2 hnobump2
            rw [hst3]
            exact hinv2.2.2
          have hv1 := genValue_lt_pow23 (readLC 2 instStr.data) rnd offset
            (genStepState st t) hIv hrnd hseq2 hlast1
          have hv2 := genValue_lt_pow23 (readLC 2 instStr.data) rnd offset
            (genStepState (genStepState st t) t2) hIv hrnd
            (genStepState_seq_le _ _) hlast2
          obtain ⟨hsub1, hlen1, hread1, hdec1⟩ := idString_of_lt _ hv1
          obtain ⟨hsub2, hlen2, hread2, hdec2⟩ := idString_of_lt _ hv2
          rw [hsub1, hsub2]
          apply idLt_of_reads _ _ hlen1 hlen2 hdec1 hdec2
          rw [hread1, hread2]
          exact hvlt

/-- Whatever the composed value, the emitted ID has 23 characters, all
decimal digits. -/
theorem idString_len_dec (v : Nat) :
    (jsSubstring (jsPadStart (baseRender 10 v) 23 '0') 0 23).length = 23 ∧
    ∀ c ∈ (jsSubstring (jsPadStart (baseRender 10 v) 23 '0') 0 23).data,
      isDecChar c = true := by
  have hpl : (jsPadStart (baseRender 10 v) 23 '0').length
      = max 23 (baseRender 10 v).length := jsPadStart_length _ 23 '0'
  have hpd : (jsPadStart (baseRender 10 v) 23 '0').data.length
      = max 23 (baseRender 10 v).length := hpl
  constructor
  · show ((jsPadStart (baseRender 10 v) 23 '0').data.take 23).length = 23
    rw [List.length_take]
    omega
  · intro c hc
    have hc2 : c ∈ (jsPadStart (baseRender 10 v) 23 '0').data.take 23 := hc
    exact jsPadStart_dec_chars _ _ (baseRender_all_dec v) c
      (List.take_subset 23 _ hc2)

/-- C5: the claim's 5-bit fingerprint is refuted: the instance identifier
consisting of 31 zeros and a final 1 hashes to the fingerprint string
`1111101001`, which has 10 characters, not 5. -/
theorem C5_counterexample :
    instanceNumberStr "00000000000000000000000000000001" = some "1111101001" ∧
      ("1111101001" : String).length ≠ 5 :=
  ⟨instanceNumberStr_one, by decide⟩

/-- C5 amended: the constructed fingerprint is the binary string of
`(hex value mod 24) + 1000`, which always has exactly 10 bits (the value
lies in 1000..1023), and it occupies bits 22..31 of the composed value,
between the time bits (from bit 32) and the sequence bits (bits 10..21). -/
theorem C5_fingerprint_amended (instanceId instStr : String)
    (h : instanceNumberStr instanceId = some instStr) :
    instStr.length = 10 ∧ (∀ c ∈ instStr.data, isBinChar c = true) ∧
    (∃ dec n, hexToDec (instanceIdPadded instanceId) = some dec ∧
      jsParseIntDec dec = some n ∧ readLC 2 instStr.data = (n % 24) + 1000) ∧
    ∀ rnd offset : Nat, ∀ st2 : SnowState, rnd ≤ 1023 → st2.seq ≤ 4095 →
      readLC 2 (genBid instStr rnd offset st2).data
        = (st2.lastTime - offset) * 2 ^ 32 + (readLC 2 instStr.data) * 2 ^ 22
          + st2.seq * 2 ^ 10 + rnd := by
  obtain ⟨h1, h2, dec, n, h3, h4, h5, h6⟩ := instanceNumberStr_props instanceId instStr h
  refine ⟨h1, h2, ⟨dec, n, h3, h4, h6⟩, ?_⟩
  intro rnd offset st2 hrnd hseq
  rw [genBid_read instStr rnd offset st2 h1 hseq hrnd]
  rfl

/-- C5 amended witness: the hashed fingerprint of the concrete instance
identifier, with its 10-bit shape and its position in the composed value. -/
theorem C5_fingerprint_amended_witness :
    ("1111101001" : String).length = 10 ∧
    (∀ c ∈ ("1111101001" : String).data, isBinChar c = true) ∧
    (∃ dec n, hexToDec (instanceIdPadded "00000000000000000000000000000001") = some dec ∧
      jsParseIntDec dec = some n ∧
      readLC 2 ("1111101001" : String).data = (n % 24) + 1000) ∧
    ∀ rnd offset : Nat, ∀ st2 : SnowState, rnd ≤ 1023 → st2.seq ≤ 4095 →
      readLC 2 (genBid "1111101001" rnd offset st2).data
        = (st2.lastTime - offset) * 2 ^ 32
          + (readLC 2 ("1111101001" : String).data) * 2 ^ 22
          + st2.seq * 2 ^ 10 + rnd :=
  C5_fingerprint_amended "00000000000000000000000000000001" "1111101001"
    instanceNumberStr_one

/-- C6: for every constructed fingerprint, process state and clock value,
`generate()` returns a string of exactly 23 characters, each a decimal
digit. -/
theorem C6_generate_23_decimal (instanceId instStr : String) (rnd offset : Nat)
    (st : SnowState) (time : Nat)
    (hinst : instanceNumberStr instanceId = some instStr)
    (hrnd : rnd ≤ 1023) :
    ∃ s : String, (generate instStr rnd offset st time).2 = some s ∧
      s.length = 23 ∧ ∀ c ∈ s.data, isDecChar c = true := by
  obtain ⟨h1, h2, _⟩ := instanceNumberStr_props instanceId instStr hinst
  rw [generate_spec instStr rnd offset st time h2 h1 hrnd]
  obtain ⟨hl, hd⟩ := idString_len_dec
    (genValue (readLC 2 instStr.data) rnd offset (genStepState st time))
  exact ⟨_, rfl, hl, hd⟩

/-- C6 witness: a concrete call at the last pre-truncation millisecond. -/
theorem C6_generate_23_decimal_witness :
    ∃ s : String, (generate "1111101001" 7 0 ⟨0, 0⟩ 23283064365385).2 = some s ∧
      s.length = 23 ∧ ∀ c ∈ s.data, isDecChar c = true :=
  C6_generate_23_decimal "00000000000000000000000000000001" "1111101001" 7 0 ⟨0, 0⟩
    23283064365385 instanceNumberStr_one (by decide)

/-- C7: the claim that truncation keeps the least significant digits is
refuted: at 2^48 elapsed ms the decimal encoding has 25 digits, the
returned string is its 23 MOST significant digits, and the 23 least
significant digits (the value mod 10^23, zero-padded) differ. -/
theorem C7_counterexample :
    (generate "1111101001" 7 0 ⟨281474976710656, 4⟩ 281474976710656).2
        = some "12089258196146333732096" ∧
      baseRender 10 (genValue (readLC 2 ("1111101001" : String).data) 7 0
          ⟨281474976710656, 5⟩)
        = "1208925819614633373209607" ∧
      jsPadStart (baseRender 10 (genValue (readLC 2 ("1111101001" : String).data) 7 0
          ⟨281474976710656, 5⟩ % 10 ^ 23)) 23 '0'
        = "08925819614633373209607" ∧
      ("12089258196146333732096" : String) ≠ "08925819614633373209607" := by
  refine ⟨?_, by decide, by decide, by decide⟩
  have h := generate_spec "1111101001" 7 0 ⟨281474976710656, 4⟩ 281474976710656
    (by decide) (by decide) (by decide)
  have hst : genStepState ⟨281474976710656, 4⟩ 281474976710656
      = ⟨281474976710656, 5⟩ := by decide
  rw [h, hst]
  decide

/-- C7 amended: when the composed value reaches 10^23, the returned
string is the first 23 characters of the decimal encoding — the MOST
significant digits — and reads back to the value integer-divided by
10^(length - 23). -/
theorem C7_truncation_amended (instStr : String) (rnd offset : Nat) (st : SnowState)
    (time : Nat) (v : Nat)
    (hbin : ∀ c ∈ instStr.data, isBinChar c = true)
    (hlen : instStr.length = 10) (hrnd : rnd ≤ 1023)
    (hv : genValue (readLC 2 instStr.data) rnd offset (genStepState st time) = v)
    (hbig : 10 ^ 23 ≤ v) :
    (generate instStr rnd offset st time).2
        = some (jsSubstring (baseRender 10 v) 0 23) ∧
      readStrBase 10 (jsSubstring (baseRender 10 v) 0 23)
        = v / 10 ^ ((baseRender 10 v).length - 23) := by
  have hL : 24 ≤ (baseRender 10 v).length := by
    rw [baseRender_length]
    have := toLEDigits_length_ge 10 (by omega) 23 v hbig
    omega
  have hpad : jsPadStart (baseRender 10 v) 23 '0' = baseRender 10 v := by
    unfold jsPadStart
    rw [if_pos (by omega)]
  constructor
  · rw [generate_spec instStr rnd offset st time hbin hlen hrnd, hv, hpad]
  · show readLC 10 ((baseRender 10 v).data.take 23)
        = v / 10 ^ ((baseRender 10 v).length - 23)
    have hdd : ∀ c ∈ (baseRender 10 v).data, digitVal c < 10 := fun c hc => by
      obtain ⟨u1, u2, u3⟩ := isDecChar_toNat c (baseRender_all_dec v c hc)
      omega
    have hsplit := List.take_append_drop 23 (baseRender 10 v).data
    have hvr : readLC 10 (baseRender 10 v).data = v :=
      baseRender_read 10 v (by omega) (by omega)
    have happ : readLC 10 ((baseRender 10 v).data.take 23 ++ (baseRender 10 v).data.drop 23)
        = readLC 10 ((baseRender 10 v).data.take 23)
            * 10 ^ ((baseRender 10 v).data.drop 23).length
          + readLC 10 ((baseRender 10 v).data.drop 23) := readLC_append 10 _ _
    rw [hsplit, hvr] at happ
    have hrlt : readLC 10 ((baseRender 10 v).data.drop 23)
        < 10 ^ ((baseRender 10 v).data.drop 23).length :=
      readLC_lt 10 _ (by omega) (fun c hc => hdd c (List.drop_subset _ _ hc))
    have hdlen : ((baseRender 10 v).data.drop 23).length = (baseRender 10 v).length - 23 :=
      List.length_drop _ _
    have hdiv : (readLC 10 ((baseRender 10 v).data.take 23)
          * 10 ^ ((baseRender 10 v).data.drop 23).length
        + readLC 10 ((baseRender 10 v).data.drop 23))
          / 10 ^ ((baseRender 10 v).data.drop 23).length
        = readLC 10 ((baseRender 10 v).data.take 23) := by
      rw [Nat.mul_comm, Nat.mul_add_div (pow_pos (by omega) _), Nat.div_eq_of_lt hrlt]
      omega
    rw [← hdlen]
    conv_rhs =>
      arg 1
      rw [happ]
    rw [hdiv]

/-- C7 amended witness: the 2^48 scenario, where the 25-digit encoding is
cut to its 23 most significant digits. -/
theorem C7_truncation_amended_witness :
    (generate "1111101001" 7 0 ⟨281474976710656, 4⟩ 281474976710656).2
        = some (jsSubstring (baseRender 10 1208925819614633373209607) 0 23) ∧
      readStrBase 10 (jsSubstring (baseRender 10 1208925819614633373209607) 0 23)
        = 1208925819614633373209607
          / 10 ^ ((baseRender 10 1208925819614633373209607).length - 23) :=
  C7_truncation_amended "1111101001" 7 0 ⟨281474976710656, 4⟩ 281474976710656
    1208925819614633373209607 (by decide) (by decide) (by decide) (by decide) (by decide)

/-- C2: strict monotonicity is refuted without a bound on the elapsed
time: two calls one millisecond apart, non-decreasing clock, one call per
tick, whose 23-character IDs strictly DECREASE numerically and
lexicographically, because the second composed value crosses 10^23, its
decimal encoding grows to 24 digits, and the fixed-width truncation
keeps only the 23 most significant of them. -/
theorem C2_counterexample :
    genRun "1111101001" 7 0 ⟨0, 0⟩ c2Times
      = [some "99999999999995767947271", some "10000000000000006291456"] ∧
      readStrBase 10 "10000000000000006291456"
        < readStrBase 10 "99999999999995767947271" ∧
      List.Lex (· < ·) ("10000000000000006291456" : String).data
        ("99999999999995767947271" : String).data := by
  have h1 := generate_spec "1111101001" 7 0 ⟨0, 0⟩ 23283064365385
    (by decide) (by decide) (by decide)
  have hst1 : genStepState ⟨0, 0⟩ 23283064365385 = ⟨23283064365385, 0⟩ := by decide
  have hg1 : generate "1111101001" 7 0 ⟨0, 0⟩ 23283064365385
      = (⟨23283064365385, 0⟩, some "99999999999995767947271") := by
    rw [h1, hst1]
    decide
  have h2 := generate_spec "1111101001" 7 0 ⟨23283064365385, 0⟩ 23283064365386
    (by decide) (by decide) (by decide)
  have hst2 : genStepState ⟨23283064365385, 0⟩ 23283064365386
      = ⟨23283064365386, 0⟩ := by decide
  have hg2 : generate "1111101001" 7 0 ⟨23283064365385, 0⟩ 23283064365386
      = (⟨23283064365386, 0⟩, some "10000000000000006291456") := by
    rw [h2, hst2]
    decide
  refine ⟨?_, by decide, List.Lex.rel (by decide)⟩
  show (generate "1111101001" 7 0 ⟨0, 0⟩ 23283064365385).2
      :: (generate "1111101001" 7 0
            (generate "1111101001" 7 0 ⟨0, 0⟩ 23283064365385).1 23283064365386).2 :: []
      = [some "99999999999995767947271", some "10000000000000006291456"]
  rw [hg1]
  show some "99999999999995767947271"
      :: (generate "1111101001" 7 0 ⟨23283064365385, 0⟩ 23283064365386).2 :: []
      = [some "99999999999995767947271", some "10000000000000006291456"]
  rw [hg2]

/-- C2 amended: with a constructed fingerprint, a non-decreasing clock
that never runs behind the state, at most 4096 calls during any one
millisecond tick, and elapsed time within 23283064365384 ms of the
offset (so the composed value stays below 10^23), consecutive
`generate()` IDs strictly increase, numerically and lexicographically. -/
theorem C2_monotonic_amended (instanceId instStr : String) (rnd offset : Nat)
    (times : List Nat) (st0 : SnowState)
    (hinst : instanceNumberStr instanceId = some instStr)
    (hrnd : rnd ≤ 1023)
    (hsorted : times.Pairwise (· ≤ ·))
    (htimes : ∀ t ∈ times, st0.lastTime ≤ t ∧ offset ≤ t ∧ t ≤ offset + 23283064365384)
    (hseq0 : st0.seq ≤ 4095)
    (hbudget : ∀ t ∈ times,
      times.count t + (if st0.lastTime = t then st0.seq + 1 else 0) ≤ 4096) :
    (genRun instStr rnd offset st0 times).Chain' idLt := by
  obtain ⟨h1, h2, dec, n, _, _, _, h6⟩ := instanceNumberStr_props instanceId instStr hinst
  refine genRun_chain instStr rnd offset h2 h1 hrnd ?_ times st0
    hsorted htimes hseq0 hbudget
  rw [h6]
  have h24 : n % 24 < 24 := Nat.mod_lt _ (by omega)
  omega

/-- C2 amended witness: a three-call run with a repeated tick, strictly
increasing both numerically and lexicographically. -/
theorem C2_monotonic_amended_witness :
    (genRun "1111101001" 7 50 ⟨60, 0⟩ [100, 100, 101]).Chain' idLt :=
  C2_monotonic_amended "00000000000000000000000000000001" "1111101001" 7 50
    [100, 100, 101] ⟨60, 0⟩ instanceNumberStr_one (by decide) (by decide) (by decide)
    (by decide) (by decide)
